import Mathlib

/-!
# Formal verification of the bustub storage-engine core

A shallow embedding, in Lean 4, of the storage-engine core of the bustub
repository: the extendible hash table, the LRU-K replacer, the buffer pool
manager and the B+Tree index.  Every definition is translated from the C++
sources; machine integers are modelled as Int/Nat (no overflow is reachable at
the sizes involved), fallible or undefined behaviour (null-pointer dereference,
fetch of an invalid page) is modelled with Option, and loops whose termination
the C++ does not make structural are given explicit fuel.

Keys and values of the extendible hash table are specialised to the
instantiation the buffer pool uses (integer keys; std::hash of a non-negative
int is the identity under libstdc++, so the hash function is the identity on
Nat).  B+Tree keys and values are specialised to integers, with the generic
comparator returning -1/0/1.
-/

namespace BustubSpec

/-! ## Extendible hash table (src/container/hash/extendible_hash_table.cpp) -/

/-- One hash-table bucket: the entry list (push_back order), the capacity
(the constructor argument `array_size`, stored in `size_`) and the local
depth. -/
structure Bucket where
  list : List (Nat × Int)
  cap : Nat
  depth : Nat
  deriving DecidableEq, Repr

/-- Modelled from the spec: Bucket::IsFull lives in the missing header
extendible_hash_table.h; the spec says a bucket "holds up to bucket_size
key/value entries", so a bucket is full when the entry list has reached the
capacity. -/
def Bucket.isFull (b : Bucket) : Bool :=
  b.list.length == b.cap

/-- Bucket::Find: linear scan of the entry list, first match wins. -/
def Bucket.find (b : Bucket) (k : Nat) : Option Int :=
  (b.list.find? (fun e => e.1 == k)).map (fun e => e.2)

/-- Erase the first entry whose key matches (std::list::erase of the found
iterator). -/
def eraseFirstKey : List (Nat × Int) → Nat → List (Nat × Int)
  | [], _ => []
  | e :: rest, k => if e.1 = k then rest else e :: eraseFirstKey rest k

/-- Bucket::Remove: erase the first matching entry, report whether one was
found. -/
def Bucket.remove (b : Bucket) (k : Nat) : Bool × Bucket :=
  if (b.list.find? (fun e => e.1 == k)).isSome then
    (true, { b with list := eraseFirstKey b.list k })
  else
    (false, b)

/-- Update the first entry carrying the key in place (`entry.second = value`),
or report that no entry carries it. -/
def updateFirstKey : List (Nat × Int) → Nat → Int → Option (List (Nat × Int))
  | [], _, _ => none
  | e :: rest, k, v =>
    if e.1 = k then some ((e.1, v) :: rest)
    else (updateFirstKey rest k v).map (fun l => e :: l)

/-- Bucket::Insert: refuse when the bucket is full; otherwise update an
existing entry in place, or push the new entry at the back. -/
def Bucket.insert (b : Bucket) (k : Nat) (v : Int) : Bool × Bucket :=
  if b.isFull then (false, b)
  else
    match updateFirstKey b.list k v with
    | some l => (true, { b with list := l })
    | none => (true, { b with list := b.list ++ [(k, v)] })

/-- The extendible hash table: the directory holds bucket ids (indices into
the bucket store), mirroring the shared_ptr aliasing of the source — several
directory slots may hold the same bucket id. -/
structure HashTable where
  bucketSize : Nat
  globalDepth : Nat
  dir : List Nat
  buckets : List Bucket
  numBuckets : Nat
  deriving DecidableEq, Repr

/-- The constructor: global depth 1, two empty buckets of local depth 1. -/
def HashTable.new (bucketSize : Nat) : HashTable :=
  { bucketSize := bucketSize
    globalDepth := 1
    dir := [0, 1]
    buckets := [⟨[], bucketSize, 1⟩, ⟨[], bucketSize, 1⟩]
    numBuckets := 2 }

/-- IndexOf: hash the key (identity on Nat) and mask with
`(1 << global_depth) - 1`. -/
def HashTable.indexOf (t : HashTable) (k : Nat) : Nat :=
  Nat.land k ((1 <<< t.globalDepth) - 1)

def HashTable.getBucket (t : HashTable) (bid : Nat) : Bucket :=
  t.buckets.getD bid ⟨[], 0, 0⟩

def HashTable.setBucket (t : HashTable) (bid : Nat) (b : Bucket) : HashTable :=
  { t with buckets := t.buckets.set bid b }

/-- ExtendibleHashTable::Find: indirect through the directory, then scan the
bucket. -/
def HashTable.findV (t : HashTable) (k : Nat) : Option Int :=
  (t.getBucket (t.dir.getD (t.indexOf k) 0)).find k

/-- ExtendibleHashTable::Remove. -/
def HashTable.removeK (t : HashTable) (k : Nat) : Bool × HashTable :=
  let bid := t.dir.getD (t.indexOf k) 0
  let r := (t.getBucket bid).remove k
  (r.1, t.setBucket bid r.2)

/-- The directory-rewrite loop of SplitBucket: for each multiple of the old
bucket stride, point the slot at the old or the new bucket according to the
new high bit. -/
def splitRewriteDir (dir : List Nat) (oldDepth globalDepth : Nat) (dirIndex : Nat)
    (mask curBit : Nat) (oldBid newBid : Nat) : List Nat :=
  (List.range (1 <<< (globalDepth - oldDepth))).foldl
    (fun d i =>
      let idx := if i = 0 then Nat.land dirIndex ((1 <<< oldDepth) - 1)
                 else Nat.lor (i <<< oldDepth) (Nat.land dirIndex ((1 <<< oldDepth) - 1))
      if Nat.land idx mask = curBit then d.set idx oldBid else d.set idx newBid)
    dir

/-- ExtendibleHashTable::SplitBucket: allocate a sibling bucket one level
deeper, move the entries whose hash disagrees with the first item on the new
high bit, rewrite the directory slots that referenced the bucket, and bump the
local depth. -/
def HashTable.splitBucket (t : HashTable) (bid : Nat) (dirIndex : Nat) : HashTable :=
  let b := t.getBucket bid
  let firstItem := (b.list.headD (0, 0)).1
  let mask := 1 <<< b.depth
  let curBit := Nat.land firstItem mask
  let newBid := t.buckets.length
  -- the redistribution loop: insert the moving entries into the new bucket
  -- (in iteration order) and collect their keys in the removal list
  let moving := b.list.filter (fun e => Nat.land e.1 mask ≠ curBit)
  let newBucket := moving.foldl (fun nb e => (nb.insert e.1 e.2).2)
    (Bucket.mk [] t.bucketSize (b.depth + 1))
  let bStay := moving.foldl (fun ob e => (ob.remove e.1).2) b
  let t1 := { t with buckets := (t.buckets.set bid bStay) ++ [newBucket] }
  let t2 := { t1 with
              dir := splitRewriteDir t1.dir b.depth t1.globalDepth dirIndex mask curBit bid newBid }
  t2.setBucket bid { (t2.getBucket bid) with depth := b.depth + 1 }

/-- ExtendibleHashTable::InsertInternal; the retry after a split is genuine
recursion in the source, modelled with fuel (none = the recursion did not
terminate within the fuel). -/
def HashTable.insertInternal : Nat → HashTable → Nat → Int → Option HashTable
  | 0, _, _, _ => none
  | fuel + 1, t, k, v =>
    let di := t.indexOf k
    let bid := t.dir.getD di 0
    let b := t.getBucket bid
    if !b.isFull then
      some (t.setBucket bid (b.insert k v).2)
    else if (b.find k).isSome then
      -- the source calls bucket->Insert(key, value) here and returns; Insert
      -- refuses because the bucket is full, so the table is left unchanged
      some (t.setBucket bid (b.insert k v).2)
    else
      let t1 :=
        if b.depth = t.globalDepth then
          { t with dir := t.dir ++ t.dir, globalDepth := t.globalDepth + 1 }
        else t
      HashTable.insertInternal fuel (t1.splitBucket bid di) k v

/-- ExtendibleHashTable::Insert (the public entry point; the latch is not
modelled). -/
def HashTable.insertKV (t : HashTable) (k : Nat) (v : Int) : Option HashTable :=
  HashTable.insertInternal (t.buckets.length + t.bucketSize + 64) t k v

/-! ## LRU-K replacer (src/buffer/lru_k_replacer.cpp, lru_k_replacer.h)

Timestamps come from a strictly increasing clock (the spec fixes the
timestamps as "monotonic, strictly increasing within a process"); the state
carries the next timestamp.  `frame_history_set_` is a std::set ordered by
FrameAccessHistoryOrderComparison; the embedding keeps its membership as a
list of frame ids and lets Evict take the comparator-greatest member, which is
what `rbegin()` returns. -/

/-- FrameAccessHistory: the evictable flag and the access-timestamp window,
newest first (RecordAccess pushes at the front and pops at the back). -/
structure FrameHist where
  evictable : Bool
  hist : List Int
  deriving DecidableEq, Repr

/-- FrameAccessHistory::RecordAccess: drop the oldest timestamp once the
window holds `look_back_size_` of them, then push the new one at the front. -/
def FrameHist.record (k : Nat) (fh : FrameHist) (ts : Int) : FrameHist :=
  let h := if k ≤ fh.hist.length then fh.hist.dropLast else fh.hist
  { fh with hist := ts :: h }

/-- `access_history_.back()`: both GetKthAccessRecord and GetLastAccessRecord
return it (the oldest timestamp of the window). -/
def histBack (l : List Int) : Int :=
  l.getLastD 0

/-- The LRU-K replacer state. -/
structure Replacer where
  k : Nat
  numFrames : Nat
  map : List (Nat × FrameHist)
  cand : List Nat
  clock : Int
  deriving DecidableEq, Repr

def Replacer.init (numFrames k : Nat) : Replacer :=
  { k := k, numFrames := numFrames, map := [], cand := [], clock := 0 }

def mapFind (m : List (Nat × FrameHist)) (f : Nat) : Option FrameHist :=
  (m.find? (fun e => e.1 == f)).map (fun e => e.2)

def mapSet : List (Nat × FrameHist) → Nat → FrameHist → List (Nat × FrameHist)
  | [], f, fh => [(f, fh)]
  | e :: rest, f, fh => if e.1 = f then (f, fh) :: rest else e :: mapSet rest f fh

def mapErase (m : List (Nat × FrameHist)) (f : Nat) : List (Nat × FrameHist) :=
  m.filter (fun e => !(e.1 == f))

/-- RemoveFrameFromSetInternal: drop the frame from the candidate set if it is
there. -/
def removeCand (c : List Nat) (f : Nat) : List Nat :=
  c.filter (fun g => !(g == f))

/-- Insert a member into the candidate set (std::set::insert ignores
duplicates). -/
def insertCand (c : List Nat) (f : Nat) : List Nat :=
  if f ∈ c then c else c ++ [f]

/-- The hist lookup the comparator performs through the shared_ptr; frames in
the candidate set are always in the map. -/
def Replacer.histOf (r : Replacer) (f : Nat) : FrameHist :=
  (mapFind r.map f).getD ⟨false, []⟩

/-- FrameAccessHistoryOrderComparison::operator() (lru_k_replacer.h lines
161-188): the strict "less" the std::set is ordered by.  `hist_available`
means the window holds exactly `k` timestamps; both GetKthAccessRecord and
GetLastAccessRecord read `access_history_.back()`. -/
def Replacer.cmpLess (r : Replacer) (f1 f2 : Nat) : Bool :=
  let h1 := r.histOf f1
  let h2 := r.histOf f2
  let avail1 := h1.hist.length == r.k
  let avail2 := h2.hist.length == r.k
  let ret :=
    if avail1 && !avail2 then false
    else if avail2 && !avail1 then true
    else if !avail2 && !avail1 then decide (histBack h1.hist ≤ histBack h2.hist)
    else decide (histBack h1.hist ≤ histBack h2.hist)
  !ret

/-- The comparator-greatest member of the candidate set: what
`frame_history_set_.rbegin()` designates. -/
def Replacer.candMax (r : Replacer) : Nat :=
  match r.cand with
  | [] => 0
  | c :: cs => cs.foldl (fun best x => if r.cmpLess best x then x else best) c

/-- LRUKReplacer::RecordAccess: create the entry (non-evictable, but inserted
straight into the candidate set) on first access; on a repeat access pull the
frame out of the set, extend its history, and re-insert it only if it is
evictable. -/
def Replacer.recordAccess (r : Replacer) (f : Nat) : Replacer :=
  match mapFind r.map f with
  | none =>
    let nf := FrameHist.record r.k ⟨false, []⟩ r.clock
    { r with map := r.map ++ [(f, nf)], cand := insertCand r.cand f, clock := r.clock + 1 }
  | some fh =>
    let c1 := removeCand r.cand f
    let fh2 := FrameHist.record r.k fh r.clock
    let r2 := { r with map := mapSet r.map f fh2, cand := c1, clock := r.clock + 1 }
    if fh2.evictable then { r2 with cand := insertCand r2.cand f } else r2

/-- LRUKReplacer::SetEvictable: the source dereferences the map iterator
without checking for end, so an absent frame is undefined behaviour (none).
Note the insertion back into the candidate set is guarded by
`frame_history_set_.size() < replacer_size_`. -/
def Replacer.setEvictable (r : Replacer) (f : Nat) (b : Bool) : Option Replacer :=
  match mapFind r.map f with
  | none => none
  | some fh =>
    let c1 := removeCand r.cand f
    let r2 := { r with cand := c1, map := mapSet r.map f { fh with evictable := b } }
    some (if b && decide (r2.cand.length < r.numFrames)
          then { r2 with cand := insertCand r2.cand f } else r2)

/-- LRUKReplacer::Remove: silent when absent, removes an evictable frame, and
aborts the process (none) on a present non-evictable frame. -/
def Replacer.removeFrame (r : Replacer) (f : Nat) : Option Replacer :=
  match mapFind r.map f with
  | none => some r
  | some fh =>
    if fh.evictable then some { r with cand := removeCand r.cand f, map := mapErase r.map f }
    else none

/-- LRUKReplacer::Evict: nothing to do on an empty candidate set; otherwise
take the comparator-greatest member, drop it from the set and erase its
history. -/
def Replacer.evict (r : Replacer) : Option Nat × Replacer :=
  match r.cand with
  | [] => (none, r)
  | _ :: _ =>
    let victim := r.candMax
    (some victim, { r with cand := removeCand r.cand victim, map := mapErase r.map victim })

/-- LRUKReplacer::Size: the size of the candidate set. -/
def Replacer.size (r : Replacer) : Nat :=
  r.cand.length

/-- The frames whose evictable flag is set (what the spec counts). -/
def Replacer.evictableFrames (r : Replacer) : List Nat :=
  (r.map.filter (fun e => e.2.evictable)).map (fun e => e.1)

/-- The replacer operations a client can issue. -/
inductive ROp where
  | record (f : Nat)
  | setEvictable (f : Nat) (b : Bool)
  | remove (f : Nat)
  | evict
  deriving DecidableEq, Repr

def Replacer.step (r : Replacer) : ROp → Option Replacer
  | ROp.record f => some (r.recordAccess f)
  | ROp.setEvictable f b => r.setEvictable f b
  | ROp.remove f => r.removeFrame f
  | ROp.evict => some (r.evict).2

/-- Run a sequence of operations from the freshly constructed replacer;
none when some operation hit undefined behaviour. -/
def Replacer.run (numFrames k : Nat) (ops : List ROp) : Option Replacer :=
  ops.foldlM Replacer.step (Replacer.init numFrames k)

/-! ## Buffer pool manager (src/buffer/buffer_pool_manager_instance.cpp)

The claims settled here (UnpinPgImp, FlushAllPgsImp, FlushPgImpInternal) touch
the page array, the page table, the replacer's evictable flags and the disk
manager.  The page table — an ExtendibleHashTable<page_id_t, frame_id_t> used
strictly as a finite map on distinct keys — is abstracted as an association
list, the replacer interaction is kept as the per-frame evictable flag
(FrameAccessHistory::SetEvictable), and the disk manager is a log of the page
ids handed to WritePage. -/

/-- The Page metadata the buffer pool reads and writes (page payload bytes are
not modelled; no claim depends on them). -/
structure CPage where
  pageId : Int
  pinCount : Int
  isDirty : Bool
  deriving DecidableEq, Repr

def defCPage : CPage := ⟨-1, 0, false⟩

/-- The buffer-pool state: the frame-indexed page array, the page table, the
free list, the replacer's evictable flags, the page-id counter and the log of
disk writes (page ids, oldest first). -/
structure BPMState where
  pages : List CPage
  pageTable : List (Int × Nat)
  freeList : List Nat
  evictFlag : List Bool
  nextPageId : Int
  diskWrites : List Int
  deriving DecidableEq, Repr

/-- page_table_->Find. -/
def ptFind (pt : List (Int × Nat)) (pid : Int) : Option Nat :=
  (pt.find? (fun e => e.1 == pid)).map (fun e => e.2)

/-- `pages_[frame]`. -/
def pageAt (s : BPMState) (frame : Nat) : CPage :=
  s.pages.getD frame defCPage

/-- FlushPgImpInternal: hand the page to disk_manager_->WritePage and clear
its dirty flag. -/
def flushPgImpInternal (s : BPMState) (frame : Nat) : BPMState :=
  let pg := pageAt s frame
  { s with
    diskWrites := s.diskWrites ++ [pg.pageId]
    pages := s.pages.set frame { pg with isDirty := false } }

/-- UnpinPgImp (buffer_pool_manager_instance.cpp lines 158-190): page not in
the table or pin count already ≤ 0 → false and no change; otherwise OR the
dirty argument in, and — the `pin_count == 0` branch being dead under the
`pin_count > 0` guard — decrement the pin count and mark the frame evictable
exactly when it reaches zero. -/
def unpinPgImp (s : BPMState) (pid : Int) (dirty : Bool) : Bool × BPMState :=
  match ptFind s.pageTable pid with
  | none => (false, s)
  | some frame =>
    let pg := pageAt s frame
    if pg.pinCount ≤ 0 then (false, s)
    else
      let pg1 := if dirty then { pg with isDirty := dirty } else pg
      if pg1.pinCount = 0 then
        (true, { s with pages := s.pages.set frame pg1, evictFlag := s.evictFlag.set frame true })
      else
        let pg2 := { pg1 with pinCount := pg1.pinCount - 1 }
        let s2 := { s with pages := s.pages.set frame pg2 }
        if pg2.pinCount = 0 then
          (true, { s2 with evictFlag := s2.evictFlag.set frame true })
        else (true, s2)

/-- FlushAllPgsImp (lines 210-221): FlushPgImpInternal on every frame of the
pool, in frame order — resident or not. -/
def flushAllPgsImp (s : BPMState) : BPMState :=
  (List.range s.pages.length).foldl flushPgImpInternal s

/-! ## B+Tree node pages (src/storage/page/b_plus_tree_leaf_page.cpp,
b_plus_tree_internal_page.cpp)

A node overlays a page: a header (page type, page id, parent page id, size,
max size, the leaf's next page id, the is-root flag) and the pair array.  The
array is modelled as a list of (key, value) slots extended with zeroed slots
on demand — NewPage zeroes the frame (ResetMemory), and slots beyond the
logical size keep their stale contents after the size shrinks, exactly as the
raw page bytes do.  Keys are Int (the generic comparator returns -1/0/1);
leaf values are Int (the RID), internal values are child page ids. -/

inductive IndexPageType where
  | invalidIndexPage
  | leafPage
  | internalPage
  deriving DecidableEq, Repr

structure BNode where
  pageType : IndexPageType
  pageId : Int
  parentPageId : Int
  size : Int
  maxSize : Int
  nextPageId : Int
  isRoot : Bool
  arr : List (Int × Int)
  deriving DecidableEq, Repr

/-- A freshly allocated, zeroed page viewed as a node: every header field and
every array slot reads zero. -/
def zeroNode : BNode :=
  { pageType := IndexPageType.invalidIndexPage, pageId := 0, parentPageId := 0,
    size := 0, maxSize := 0, nextPageId := 0, isRoot := false, arr := [] }

/-- `array_[i]` as a read: slots beyond the stored list read as zeroed
memory. -/
def arrGet (l : List (Int × Int)) (i : Int) : Int × Int :=
  if 0 ≤ i then l.getD i.toNat (0, 0) else (0, 0)

/-- `array_[i] = e` as a write, materialising intervening zeroed slots. -/
def arrSetI (l : List (Int × Int)) (i : Int) (e : Int × Int) : List (Int × Int) :=
  if 0 ≤ i then
    let n := i.toNat
    if n < l.length then l.set n e
    else (l ++ List.replicate (n + 1 - l.length) (0, 0)).set n e
  else l

/-- The list of Int indices a, a+1, …, b-1. -/
def intRangeFromTo (a b : Int) : List Int :=
  (List.range (b - a).toNat).map (fun j => a + (j : Int))

/-- The list of Int indices 0, 1, …, b-1. -/
def intRange0 (b : Int) : List Int :=
  intRangeFromTo 0 b

/-- GenericComparator: -1, 0 or 1. -/
def cmpInt (a b : Int) : Int :=
  if a < b then -1 else if a = b then 0 else 1

/-- ShiftUnderlyingArray(start_idx, 1): copy the slots [start, size) one to
the right, reading the original array (the source copies through a temporary
first). -/
def shiftUnderlying (start : Int) (n : BNode) : BNode :=
  let old := n.arr
  { n with arr := ((intRangeFromTo start n.size).foldl
      (fun a i => arrSetI a (i + 1) (arrGet old i)) n.arr) }

/-- InsertKVPairAt: shift from the index, write the pair, grow the size. -/
def nodeInsertKVPairAt (idx : Int) (kv : Int × Int) (n : BNode) : BNode :=
  let n1 := shiftUnderlying idx n
  { n1 with arr := arrSetI n1.arr idx kv, size := n1.size + 1 }

/-- AddKVPair: InsertKVPairAt at the current size (the shift copies
nothing). -/
def nodeAddKVPair (kv : Int × Int) (n : BNode) : BNode :=
  nodeInsertKVPairAt n.size kv n

/-- BPlusTreeLeafPage::RemoveAtIndex: shift the tail left by one and shrink
the size; the last occupied slot keeps its stale contents. -/
def leafRemoveAtIndex (idx : Int) (n : BNode) : BNode :=
  let old := n.arr
  { n with
    arr := ((intRangeFromTo (idx + 1) n.size).foldl
      (fun a i => arrSetI a (i - 1) (arrGet old i)) n.arr)
    size := n.size - 1 }

/-- BPlusTreeInternalPage::RemoveAtIndex: a bounds check, then the same
shift-and-shrink. -/
def internalRemoveAtIndex (idx : Int) (n : BNode) : Bool × BNode :=
  if idx < 0 ∨ n.size ≤ idx then (false, n)
  else (true, leafRemoveAtIndex idx n)

/-- The binary-search loop body shared by
FindIndexInLeafPageJustGreaterThanKey and
FindIndexInInternalPageJustGreaterThanKey.  The first component is true when
the loop returned -1 early on an exact comparator match.  The loop terminates
because the interval shrinks, here made structural with fuel wider than the
node size. -/
def findJGLoop (n : BNode) (key : Int) : Nat → Int → Int → Int → Bool × Int
  | 0, _, _, result => (false, result)
  | fuel + 1, low, high, result =>
    if low ≤ high then
      let mid := (low + high) / 2
      let c := cmpInt key (arrGet n.arr mid).1
      if c = 0 then (true, -1)
      else if c = 1 then findJGLoop n key fuel (mid + 1) high result
      else findJGLoop n key fuel low (mid - 1) mid
    else (false, result)

/-- FindIndexIn{Leaf,Internal}PageJustGreaterThanKey: `lowInit` is 0 for
leaves and 1 for internal nodes; an exact match yields -1, no hit yields the
size. -/
def findIndexJustGreater (lowInit : Int) (n : BNode) (key : Int) : Int :=
  match findJGLoop n key (n.size.toNat + 2) lowInit (n.size - 1) (-1) with
  | (true, v) => v
  | (false, result) => if result = -1 then n.size else result

/-- BPlusTreeInternalPage::FindNextPageId: find the child slot holding the
page id; the guard `idx <= GetSize() - 1` is always true inside the loop, so
the slot one past the match is read even for the last child — a stale or
zeroed slot of the raw page. -/
def findNextPageId (parent : BNode) (currPid : Int) : Int :=
  match (intRange0 parent.size).find? (fun i => (arrGet parent.arr i).2 == currPid) with
  | some i => (arrGet parent.arr (i + 1)).2
  | none => -1

/-- BPlusTreeInternalPage::FindPreviousPageId: the loop breaks only on a
match at a positive index, so a match at slot 0 leaves INVALID_PAGE_ID. -/
def findPreviousPageId (parent : BNode) (currPid : Int) : Int :=
  match (intRange0 parent.size).find?
      (fun i => (arrGet parent.arr i).2 == currPid && decide (0 < i)) with
  | some i => (arrGet parent.arr (i - 1)).2
  | none => -1

/-- BPlusTreeInternalPage::RemovePageId: locate the child and remove its
slot. -/
def internalRemovePageId (parent : BNode) (pid : Int) : Bool × BNode :=
  match (intRange0 parent.size).find? (fun i => (arrGet parent.arr i).2 == pid) with
  | some i => internalRemoveAtIndex i parent
  | none => (false, parent)

/-- BPlusTreeInternalPage::SetKeyAt (b_plus_tree_internal_page.cpp lines
47-50): the pair at the index is copied into a local, the key is assigned into
the local copy, and nothing is written back. -/
def setKeyAt (n : BNode) (index : Int) (key : Int) : BNode :=
  let existingPair := arrGet n.arr index
  let existingPair := (key, existingPair.2)
  let _ := existingPair
  n

/-- BPlusTreeLeafPage::Init: page id, parent id, max size, size 0, next page
INVALID (the page type is set separately by the caller). -/
def initLeafNode (pid parent maxSize : Int) (n : BNode) : BNode :=
  { n with pageId := pid, parentPageId := parent, maxSize := maxSize,
           size := 0, nextPageId := -1 }

/-- BPlusTreeInternalPage::Init: page id, parent id, max size, the INTERNAL
page type, size 0. -/
def initInternalNode (pid parent maxSize : Int) (n : BNode) : BNode :=
  { n with pageId := pid, parentPageId := parent, maxSize := maxSize,
           pageType := IndexPageType.internalPage, size := 0 }

/-! ## B+Tree (src/storage/index/b_plus_tree.cpp)

The tree operations run against a page store: the buffer pool, seen through
FetchPage/NewPage, is the map from page ids to nodes, and NewPage allocates
`next_page_id_++` starting from zero on a zeroed frame.  Node pointers become
page ids, and every field read goes through the store, which preserves the
source's aliasing.  FetchPage of a page id that was never allocated — in
particular FetchPage(INVALID_PAGE_ID) followed by the unchecked GetData() —
is undefined behaviour, modelled as none.  UpdateRootPageId maintains the
header page's name→root records; those raw header bytes are outside the
claims here, so it leaves the node store unchanged.  Recursion that the
source does not bound (the descent loop, insert propagation, coalesce
propagation) carries fuel wider than the page count. -/

structure TreeState where
  pages : List (Int × BNode)
  nextPageId : Int
  rootPageId : Int
  leafMaxSize : Int
  internalMaxSize : Int
  deriving DecidableEq, Repr

/-- The state-and-undefined-behaviour monad for tree operations. -/
def TreeM (α : Type) : Type :=
  TreeState → Option (α × TreeState)

instance : Monad TreeM where
  pure a := fun s => some (a, s)
  bind m f := fun s =>
    match m s with
    | none => none
    | some (a, s1) => f a s1

def getTree : TreeM TreeState :=
  fun s => some (s, s)

def lookupPage (t : TreeState) (pid : Int) : Option BNode :=
  (t.pages.find? (fun e => e.1 == pid)).map (fun e => e.2)

def setPage (t : TreeState) (pid : Int) (n : BNode) : TreeState :=
  { t with pages := t.pages.map (fun e => if e.1 = pid then (pid, n) else e) }

/-- FetchPage + the reinterpret_cast read of the node: none when the page id
was never allocated (the nullptr dereference). -/
def fetchNode (pid : Int) : TreeM BNode :=
  fun s =>
    match lookupPage s pid with
    | none => none
    | some n => some (n, s)

/-- Mutate a node in place through its page pointer. -/
def modifyNodeM (pid : Int) (f : BNode → BNode) : TreeM Unit :=
  fun s =>
    match lookupPage s pid with
    | none => none
    | some n => some ((), setPage s pid (f n))

def writeNode (pid : Int) (n : BNode) : TreeM Unit :=
  modifyNodeM pid (fun _ => n)

/-- NewPage: hand out `next_page_id_++` with a zeroed frame. -/
def allocPage : TreeM Int :=
  fun s =>
    some (s.nextPageId,
      { s with pages := s.pages ++ [(s.nextPageId, zeroNode)],
               nextPageId := s.nextPageId + 1 })

/-- `root_page_id_ = pid` followed by UpdateRootPageId (header-page
bookkeeping, no effect on the node store). -/
def setRootId (pid : Int) : TreeM Unit :=
  fun s => some ((), { s with rootPageId := pid })

/-- The linear scan of an internal node shared by GetValue, Insert and
Remove: `for (i = 1; i < size; i++) if (comparator(KeyAt(i), key) == 1)
break;` — the break index, or the size when no key is greater, or 1 when the
loop body never runs. -/
def scanBreakIdx (n : BNode) (key : Int) : Int :=
  match (intRangeFromTo 1 n.size).find? (fun i => cmpInt (arrGet n.arr i).1 key == 1) with
  | some i => i
  | none => if n.size ≤ 0 then 1 else n.size

/-- The descent loop: fetch the page, stop at a leaf, otherwise follow
`ValueAt(i - 1)` for the break index `i`. -/
def findLeafLoop (key : Int) : Nat → Int → TreeM Int
  | 0, _ => fun _ => none
  | fuel + 1, pid => do
    let n ← fetchNode pid
    if n.pageType = IndexPageType.leafPage then pure pid
    else
      findLeafLoop key fuel (arrGet n.arr (scanBreakIdx n key - 1)).2

/-- The exact-match scan of a leaf: the first index with
`comparator(key, KeyAt(i)) == 0`. -/
def leafFindEqIdx (n : BNode) (key : Int) : Option Int :=
  (intRange0 n.size).find? (fun i => cmpInt key (arrGet n.arr i).1 == 0)

/-- BPlusTree::GetValue: descend from the root (fetched without an emptiness
check), then scan the leaf; true plus the value on a hit. -/
def getValueM (key : Int) : TreeM (Bool × Option Int) := do
  let s ← getTree
  let leafPid ← findLeafLoop key (s.pages.length + 1) s.rootPageId
  let leaf ← fetchNode leafPid
  match leafFindEqIdx leaf key with
  | some i => pure (true, some (arrGet leaf.arr i).2)
  | none => pure (false, none)

/-- InsertAndUpdateParentPage: insert the pair and re-parent the child the
value points at. -/
def insertAndUpdateParentPage (toPid idx key value : Int) : TreeM Unit := do
  modifyNodeM toPid (nodeInsertKVPairAt idx (key, value))
  let child ← fetchNode value
  writeNode value { child with parentPageId := toPid }

/-- The pair-moving loop of the internal split (lines 292-298): copy the
slots [mid, size) into the new page and re-parent each moved child. -/
def moveInternalPairsLoop (srcPid dstPid : Int) (mid : Int) : TreeM Unit := do
  let src ← fetchNode srcPid
  (intRangeFromTo mid src.size).forM (fun i => do
    let src2 ← fetchNode srcPid
    let pair := arrGet src2.arr i
    modifyNodeM dstPid (fun d => { d with arr := arrSetI d.arr (i - mid) pair })
    let child ← fetchNode pair.2
    writeNode pair.2 { child with parentPageId := dstPid })

/-- The pair-moving loop of the leaf split (lines 365-367). -/
def moveLeafPairsLoop (srcPid dstPid : Int) (mid : Int) : TreeM Unit := do
  let src ← fetchNode srcPid
  (intRangeFromTo mid src.size).forM (fun i => do
    let src2 ← fetchNode srcPid
    modifyNodeM dstPid (fun d => { d with arr := arrSetI d.arr (i - mid) (arrGet src2.arr i) }))

/-- BPlusTree::InsertIntoInternalPage (lines 268-343).  A full node is split:
a fresh internal page (note the source passes `leaf_max_size_` to its Init),
the upper half moved across with re-parenting, the new pair inserted into the
proper half, then the split is promoted into the parent — materialising a new
root when there is none.  Otherwise the pair is inserted in place.  The
propagation recursion carries fuel. -/
def insertIntoInternalPage : Nat → Int → Int → Int → TreeM Bool
  | 0, _, _, _ => fun _ => none
  | fuel + 1, pid, key, value => do
    let node ← fetchNode pid
    let s ← getTree
    if node.size = s.internalMaxSize then do
      let newPid ← allocPage
      modifyNodeM newPid (fun n => initInternalNode newPid (-1) s.leafMaxSize n)
      modifyNodeM newPid (fun n =>
        { n with pageType := IndexPageType.internalPage, isRoot := false })
      let node1 ← fetchNode pid
      let idx := findIndexJustGreater 1 node1 key
      if idx = -1 then pure false
      else do
        let mid0 := node1.size / 2
        let mid := if idx > mid0 then mid0 + 1 else mid0
        let count := node1.size - mid
        moveInternalPairsLoop pid newPid mid
        modifyNodeM pid (fun n => { n with size := mid, isRoot := false })
        modifyNodeM newPid (fun n => { n with size := count })
        if idx < s.internalMaxSize ∧ idx ≤ mid then
          insertAndUpdateParentPage pid idx key value
        else
          insertAndUpdateParentPage newPid (idx - mid) key value
        let node2 ← fetchNode pid
        if node2.parentPageId = -1 then do
          let npp ← allocPage
          modifyNodeM npp (fun n => initInternalNode npp (-1) s.internalMaxSize n)
          modifyNodeM npp (fun n => { n with isRoot := true })
          setRootId npp
          let node3 ← fetchNode pid
          let _ ← insertIntoInternalPage fuel npp (arrGet node3.arr 0).1 pid
          modifyNodeM pid (fun n => { n with parentPageId := npp })
          let newNode ← fetchNode newPid
          let _ ← insertIntoInternalPage fuel npp (arrGet newNode.arr 0).1 newPid
          modifyNodeM newPid (fun n => { n with parentPageId := npp })
          pure true
        else do
          let newNode ← fetchNode newPid
          let _ ← insertIntoInternalPage fuel node2.parentPageId (arrGet newNode.arr 0).1 newPid
          modifyNodeM newPid (fun n => { n with parentPageId := node2.parentPageId })
          pure true
    else do
      let idx := findIndexJustGreater 1 node key
      if idx = -1 then pure false
      else do
        insertAndUpdateParentPage pid idx key value
        pure true

/-- BPlusTree::SplitLeafPageAndAddKey (lines 346-400): returns the new leaf's
page id, or -1 when the key is already present (found by the binary search
before anything is allocated or mutated). -/
def splitLeafPageAndAddKey (fuel : Nat) (leafPid key value : Int) : TreeM Int := do
  let leaf ← fetchNode leafPid
  let idx := findIndexJustGreater 0 leaf key
  if idx = -1 then pure (-1)
  else do
    let s ← getTree
    let newPid ← allocPage
    modifyNodeM newPid (fun n => initLeafNode newPid (-1) s.leafMaxSize n)
    modifyNodeM newPid (fun n =>
      { n with pageType := IndexPageType.leafPage, isRoot := false })
    let leaf1 ← fetchNode leafPid
    let mid0 := leaf1.size / 2
    let mid := if idx > mid0 then mid0 + 1 else mid0
    let count := leaf1.size - mid
    moveLeafPairsLoop leafPid newPid mid
    modifyNodeM leafPid (fun n =>
      { n with size := mid, nextPageId := newPid, isRoot := false })
    modifyNodeM newPid (fun n => { n with size := count })
    if idx < s.leafMaxSize ∧ idx ≤ mid then
      modifyNodeM leafPid (nodeInsertKVPairAt idx (key, value))
    else
      modifyNodeM newPid (nodeInsertKVPairAt (idx - mid) (key, value))
    let leaf2 ← fetchNode leafPid
    if leaf2.parentPageId = -1 then do
      let npp ← allocPage
      modifyNodeM npp (fun n => initInternalNode npp (-1) s.internalMaxSize n)
      modifyNodeM npp (fun n => { n with isRoot := true })
      setRootId npp
      let leaf3 ← fetchNode leafPid
      let _ ← insertIntoInternalPage fuel npp (arrGet leaf3.arr 0).1 leafPid
      let newLeaf ← fetchNode newPid
      let _ ← insertIntoInternalPage fuel npp (arrGet newLeaf.arr 0).1 newPid
      pure newPid
    else do
      let newLeaf ← fetchNode newPid
      let _ ← insertIntoInternalPage fuel leaf2.parentPageId (arrGet newLeaf.arr 0).1 newPid
      pure newPid

/-- BPlusTree::Insert (lines 80-123): materialise a root leaf on an empty
tree, descend, split a leaf whose size equals `leaf_max_size_` — note the
split's page-id result (-1 on a duplicate) is implicitly converted to bool —
or insert at the sorted position, refusing a duplicate with false. -/
def bptInsertM (key value : Int) : TreeM Bool := do
  let s0 ← getTree
  if s0.rootPageId = -1 then do
    let pid ← allocPage
    setRootId pid
    let s1 ← getTree
    modifyNodeM pid (fun n => initLeafNode pid (-1) s1.leafMaxSize n)
    modifyNodeM pid (fun n => { n with pageType := IndexPageType.leafPage, isRoot := true })
  let s ← getTree
  let leafPid ← findLeafLoop key (s.pages.length + 1) s.rootPageId
  let leaf ← fetchNode leafPid
  if leaf.size = s.leafMaxSize then do
    let r ← splitLeafPageAndAddKey (s.pages.length + 8) leafPid key value
    pure (r != 0)
  else do
    let i := findIndexJustGreater 0 leaf key
    if i = -1 then pure false
    else do
      modifyNodeM leafPid (nodeInsertKVPairAt i (key, value))
      pure true

/-- MergeLeafNode (lines 472-480): append every pair of the source leaf onto
the destination leaf (the source is left untouched, and next pointers are not
fixed). -/
def mergeLeafNode (fromPid toPid : Int) : TreeM Unit := do
  let fromN ← fetchNode fromPid
  (intRange0 fromN.size).forM (fun i => do
    let fromN2 ← fetchNode fromPid
    modifyNodeM toPid (nodeAddKVPair (arrGet fromN2.arr i)))

/-- MergeInternalNode (lines 483-491): the same append loop on internal
nodes. -/
def mergeInternalNode (fromPid toPid : Int) : TreeM Unit := do
  let fromN ← fetchNode fromPid
  (intRange0 fromN.size).forM (fun i => do
    let fromN2 ← fetchNode fromPid
    modifyNodeM toPid (nodeAddKVPair (arrGet fromN2.arr i)))

mutual

/-- BPlusTree::CoalesceInternalNode (lines 204-228): bail out when at least
half full; otherwise fetch the parent (undefined behaviour on the root, whose
parent id is INVALID), try to merge into the right then the left sibling, and
propagate the removal; no redistribution exists. -/
def coalesceInternalNode : Nat → Int → TreeM Bool
  | 0, _ => fun _ => none
  | fuel + 1, pid => do
    let node ← fetchNode pid
    if node.size ≥ node.maxSize / 2 then pure false
    else do
      let parent ← fetchNode node.parentPageId
      let rightPid := findNextPageId parent node.pageId
      let right ← fetchNode rightPid
      let s ← getTree
      if right.size + node.size < s.internalMaxSize then do
        mergeInternalNode rightPid pid
        removeFromParentPage fuel rightPid
      else do
        let parent2 ← fetchNode node.parentPageId
        let leftPid := findPreviousPageId parent2 node.pageId
        let left ← fetchNode leftPid
        let node2 ← fetchNode pid
        if left.size + node2.size < s.internalMaxSize then do
          mergeInternalNode pid leftPid
          removeFromParentPage fuel pid
        else pure true

/-- BPlusTree::RemoveFromParentPage (lines 494-504): drop the child's slot
from the parent and coalesce the parent when the drop succeeded. -/
def removeFromParentPage : Nat → Int → TreeM Bool
  | 0, _ => fun _ => none
  | fuel + 1, childPid => do
    let child ← fetchNode childPid
    let parent ← fetchNode child.parentPageId
    let rr := internalRemovePageId parent child.pageId
    writeNode child.parentPageId rr.2
    if rr.1 then coalesceInternalNode fuel child.parentPageId
    else pure false

end

/-- BPlusTree::CoalesceLeafNode (lines 176-201): bail out above half full;
otherwise merge into the right sibling if the combined size stays under
`leaf_max_size_`, else into the left, else leave the leaf as it is — no
redistribution exists. -/
def coalesceLeafNode (fuel : Nat) (pid : Int) : TreeM Bool := do
  let leaf ← fetchNode pid
  if leaf.size > leaf.maxSize / 2 then pure false
  else do
    let parent ← fetchNode leaf.parentPageId
    let rightPid := findNextPageId parent leaf.pageId
    let right ← fetchNode rightPid
    let s ← getTree
    if right.size + leaf.size < s.leafMaxSize then do
      mergeLeafNode rightPid pid
      let _ ← removeFromParentPage fuel rightPid
      pure true
    else do
      let parent2 ← fetchNode leaf.parentPageId
      let leftPid := findPreviousPageId parent2 leaf.pageId
      let left ← fetchNode leftPid
      let leaf2 ← fetchNode pid
      if left.size + leaf2.size < s.leafMaxSize then do
        mergeLeafNode pid leftPid
        let _ ← removeFromParentPage fuel pid
        pure true
      else pure true

/-- BPlusTree::Remove (lines 138-173): descend from the root (fetched without
an emptiness check), scan the leaf for the key, remove it, and coalesce when
the size has fallen to half the max or below; absent keys are a no-op. -/
def bptRemoveM (key : Int) : TreeM Unit := do
  let s ← getTree
  let leafPid ← findLeafLoop key (s.pages.length + 1) s.rootPageId
  let leaf ← fetchNode leafPid
  match leafFindEqIdx leaf key with
  | none => pure ()
  | some i => do
    modifyNodeM leafPid (leafRemoveAtIndex i)
    let leaf2 ← fetchNode leafPid
    if leaf2.size ≤ leaf2.maxSize / 2 then do
      let _ ← coalesceLeafNode (s.pages.length + 8) leafPid
      pure ()
    else pure ()

/-- An empty tree as constructed: no pages, INVALID root, the two size
parameters. -/
def newTree (leafMax internalMax : Int) : TreeState :=
  { pages := [], nextPageId := 0, rootPageId := -1,
    leafMaxSize := leafMax, internalMaxSize := internalMax }

def bptInsert (t : TreeState) (key value : Int) : Option (Bool × TreeState) :=
  bptInsertM key value t

def bptGetValue (t : TreeState) (key : Int) : Option (Bool × Option Int) :=
  (getValueM key t).map (fun r => r.1)

def bptRemove (t : TreeState) (key : Int) : Option TreeState :=
  (bptRemoveM key t).map (fun r => r.2)

/-- Insert each key with value 10·key, giving up on undefined behaviour. -/
def bptInsertAll (t : TreeState) (keys : List Int) : Option TreeState :=
  keys.foldlM (fun acc k => (bptInsertM k (10 * k) acc).map (fun r => r.2)) t

/-! ## Index iterator (src/storage/index/index_iterator.cpp, index_iterator.h) -/

/-- The iterator's members: the current leaf page id and the index inside
it. -/
structure BIter where
  currPageId : Int
  currIdx : Int
  deriving DecidableEq, Repr

/-- BPlusTree::Begin (b_plus_tree.cpp line 239): `return INDEXITERATOR_TYPE();`
— a default-constructed iterator whose members are indeterminate (the class
declares no default constructor and never reads the tree), modelled by an
arbitrary junk iterator passed in: the tree argument is ignored. -/
def bptBegin (t : TreeState) (junk : BIter) : BIter :=
  let _ := t
  junk

/-- BPlusTree::End (line 255): the same default-constructed iterator. -/
def bptEnd (t : TreeState) (junk : BIter) : BIter :=
  let _ := t
  junk

/-- IndexIterator::IsEnd (index_iterator.cpp lines 21-34): true on an INVALID
page id, true on a non-leaf page, and — already — true at the last occupied
slot of a leaf with no successor. -/
def iterIsEnd (t : TreeState) (it : BIter) : Option Bool :=
  if it.currPageId = -1 then some true
  else
    match lookupPage t it.currPageId with
    | none => none
    | some n =>
      if n.pageType ≠ IndexPageType.leafPage then some true
      else some (decide (it.currIdx = n.size - 1 ∧ n.nextPageId = -1))

/-- IndexIterator::operator++ (lines 43-57). -/
def iterInc (t : TreeState) (it : BIter) : Option BIter :=
  match iterIsEnd t it with
  | none => none
  | some true => some it
  | some false =>
    match lookupPage t it.currPageId with
    | none => none
    | some n =>
      if it.currIdx = n.size - 1 then some ⟨n.nextPageId, 0⟩
      else some { it with currIdx := it.currIdx + 1 }

/-- The client scan `while (!it.IsEnd()) { out.push_back((*it).first); ++it; }`
collecting the keys the iterator yields. -/
def iterCollect : Nat → TreeState → BIter → Option (List Int)
  | 0, _, _ => none
  | fuel + 1, t, it =>
    match iterIsEnd t it with
    | none => none
    | some true => some []
    | some false =>
      match lookupPage t it.currPageId with
      | none => none
      | some n =>
        match iterInc t it with
        | none => none
        | some it2 => (iterCollect fuel t it2).map (fun l => (arrGet n.arr it.currIdx).1 :: l)

/-- The spec's intended start of the scan: descend to the leftmost leaf
(child 0 at every internal node) and stand on slot 0. -/
def leftmostLeafPid : Nat → TreeState → Int → Option Int
  | 0, _, _ => none
  | fuel + 1, t, pid =>
    match lookupPage t pid with
    | none => none
    | some n =>
      if n.pageType = IndexPageType.leafPage then some pid
      else leftmostLeafPid fuel t (arrGet n.arr 0).2

def leftmostIter (t : TreeState) : Option BIter :=
  (leftmostLeafPid (t.pages.length + 1) t t.rootPageId).map (fun pid => ⟨pid, 0⟩)

/-! ## The spec's LRU-K victim ordering

The spec's §4.2 victim selection, written from the spec's words, for
comparison with the code's comparator: prefer candidates with fewer than `k`
recorded accesses, breaking ties by the earliest (minimum) recorded
timestamp — the first access for a short history, the k-th most recent access
for a full window.  In both cases the relevant timestamp is the minimum of
the stored history. -/

/-- The minimum timestamp of a history (0 for an empty one, which never
occurs for a live frame). -/
def histMin : List Int → Int
  | [] => 0
  | a :: as => as.foldl min a

/-- The spec-side ordering key of a frame: rank 0 when the frame has fewer
than `k` recorded accesses (spec rule 1), rank 1 otherwise (spec rule 2); the
second component is the timestamp the rule compares. -/
def specKey (r : Replacer) (f : Nat) : Nat × Int :=
  let fh := r.histOf f
  (if fh.hist.length < r.k then 0 else 1, histMin fh.hist)

/-- Strict lexicographic order on spec keys: a lower rank wins, then the
earlier timestamp. -/
def specKeyLt (a b : Nat × Int) : Prop :=
  a.1 < b.1 ∨ (a.1 = b.1 ∧ a.2 < b.2)

/-- Bool validity of the frame ids an operation touches (the spec requires
`0 ≤ frame_id < num_frames`). -/
def ROp.frameOk (n : Nat) : ROp → Bool
  | ROp.record f => decide (f < n)
  | ROp.setEvictable f _ => decide (f < n)
  | ROp.remove f => decide (f < n)
  | ROp.evict => true

/-- The invariant of replacer states reachable by valid traces. -/
structure RInv (n k : Nat) (r : Replacer) : Prop where
  kPos : 1 ≤ k
  kEq : r.k = k
  nEq : r.numFrames = n
  keysNodup : (r.map.map Prod.fst).Nodup
  keysLt : ∀ f ∈ r.map.map Prod.fst, f < n
  candNodup : r.cand.Nodup
  candSub : ∀ f ∈ r.cand, f ∈ r.map.map Prod.fst
  evictableInCand : ∀ f fh, mapFind r.map f = some fh → fh.evictable = true → f ∈ r.cand
  histLen : ∀ f fh, mapFind r.map f = some fh → 1 ≤ fh.hist.length ∧ fh.hist.length ≤ k
  histSorted : ∀ f fh, mapFind r.map f = some fh → fh.hist.Chain' (fun a b => b < a)
  tsLt : ∀ f fh, mapFind r.map f = some fh → ∀ t ∈ fh.hist, t < r.clock
  histDisj : ∀ f g fhf fhg, f ≠ g → mapFind r.map f = some fhf → mapFind r.map g = some fhg →
    ∀ a ∈ fhf.hist, ∀ b ∈ fhg.hist, a ≠ b

/-! ## Concrete scenario states used by the claims -/

/-- The C1 scenario: leaf_max_size 2, internal_max_size 3.  One key
inserted. -/
def c1T1 : TreeState :=
  ⟨[(0, ⟨.leafPage, 0, -1, 1, 2, -1, true, [(1, 10)]⟩)], 1, 0, 2, 3⟩

/-- Keys 1 and 2 inserted: the root leaf is full (size = leaf_max_size =
2). -/
def c1Tree : TreeState :=
  ⟨[(0, ⟨.leafPage, 0, -1, 2, 2, -1, true, [(1, 10), (2, 20)]⟩)], 1, 0, 2, 3⟩

/-- The C10 scenario: a four-key root leaf (leaf_max_size 4), on which both
GetValue and Remove run without reaching an invalid fetch. -/
def c10Tree : TreeState :=
  ⟨[(0, ⟨.leafPage, 0, -1, 4, 4, -1, true, [(1, 10), (2, 20), (3, 30), (4, 40)]⟩)],
   1, 0, 4, 4⟩

/-- The C6 scenario: leaf_max_size 4, internal_max_size 4; the states reached
by inserting keys 1–9 in ascending order (each key k carries value 10·k),
then deleting 5 and 6.  c6T1 … c6T9 are the states after each insert; the
i-th insert appends key i. -/
def c6T1 : TreeState :=
  ⟨[(0, ⟨.leafPage, 0, -1, 1, 4, -1, true, [(1, 10)]⟩)], 1, 0, 4, 4⟩

def c6T2 : TreeState :=
  ⟨[(0, ⟨.leafPage, 0, -1, 2, 4, -1, true, [(1, 10), (2, 20)]⟩)], 1, 0, 4, 4⟩

def c6T3 : TreeState :=
  ⟨[(0, ⟨.leafPage, 0, -1, 3, 4, -1, true, [(1, 10), (2, 20), (3, 30)]⟩)], 1, 0, 4, 4⟩

def c6T4 : TreeState :=
  ⟨[(0, ⟨.leafPage, 0, -1, 4, 4, -1, true, [(1, 10), (2, 20), (3, 30), (4, 40)]⟩)],
   1, 0, 4, 4⟩

def c6T5 : TreeState :=
  ⟨[(0, ⟨.leafPage, 0, 2, 3, 4, 1, false, [(1, 10), (2, 20), (3, 30), (4, 40)]⟩),
    (1, ⟨.leafPage, 1, 2, 2, 4, -1, false, [(4, 40), (5, 50)]⟩),
    (2, ⟨.internalPage, 2, -1, 2, 4, 0, true, [(1, 0), (4, 1)]⟩)],
   3, 2, 4, 4⟩

def c6T6 : TreeState :=
  ⟨[(0, ⟨.leafPage, 0, 2, 3, 4, 1, false, [(1, 10), (2, 20), (3, 30), (4, 40)]⟩),
    (1, ⟨.leafPage, 1, 2, 3, 4, -1, false, [(4, 40), (5, 50), (6, 60)]⟩),
    (2, ⟨.internalPage, 2, -1, 2, 4, 0, true, [(1, 0), (4, 1)]⟩)],
   3, 2, 4, 4⟩

def c6T7 : TreeState :=
  ⟨[(0, ⟨.leafPage, 0, 2, 3, 4, 1, false, [(1, 10), (2, 20), (3, 30), (4, 40)]⟩),
    (1, ⟨.leafPage, 1, 2, 4, 4, -1, false, [(4, 40), (5, 50), (6, 60), (7, 70)]⟩),
    (2, ⟨.internalPage, 2, -1, 2, 4, 0, true, [(1, 0), (4, 1)]⟩)],
   3, 2, 4, 4⟩

def c6T8 : TreeState :=
  ⟨[(0, ⟨.leafPage, 0, 2, 3, 4, 1, false, [(1, 10), (2, 20), (3, 30), (4, 40)]⟩),
    (1, ⟨.leafPage, 1, 2, 3, 4, 3, false, [(4, 40), (5, 50), (6, 60), (7, 70)]⟩),
    (2, ⟨.internalPage, 2, -1, 3, 4, 0, true, [(1, 0), (4, 1), (7, 3)]⟩),
    (3, ⟨.leafPage, 3, 2, 2, 4, -1, false, [(7, 70), (8, 80)]⟩)],
   4, 2, 4, 4⟩

def c6T9 : TreeState :=
  ⟨[(0, ⟨.leafPage, 0, 2, 3, 4, 1, false, [(1, 10), (2, 20), (3, 30), (4, 40)]⟩),
    (1, ⟨.leafPage, 1, 2, 3, 4, 3, false, [(4, 40), (5, 50), (6, 60), (7, 70)]⟩),
    (2, ⟨.internalPage, 2, -1, 3, 4, 0, true, [(1, 0), (4, 1), (7, 3)]⟩),
    (3, ⟨.leafPage, 3, 2, 3, 4, -1, false, [(7, 70), (8, 80), (9, 90)]⟩)],
   4, 2, 4, 4⟩

/-- After deleting 5: the middle leaf (page 1) holds [4, 6], size 2 = ⌈4/2⌉
(slots beyond the size keep their stale contents). -/
def c6Mid : TreeState :=
  ⟨[(0, ⟨.leafPage, 0, 2, 3, 4, 1, false, [(1, 10), (2, 20), (3, 30), (4, 40)]⟩),
    (1, ⟨.leafPage, 1, 2, 2, 4, 3, false, [(4, 40), (6, 60), (6, 60), (7, 70)]⟩),
    (2, ⟨.internalPage, 2, -1, 3, 4, 0, true, [(1, 0), (4, 1), (7, 3)]⟩),
    (3, ⟨.leafPage, 3, 2, 3, 4, -1, false, [(7, 70), (8, 80), (9, 90)]⟩)],
   4, 2, 4, 4⟩

/-- After deleting 6: the middle leaf (page 1) is down to size 1 and both
siblings hold 3 entries, so no merge fires and nothing redistributes. -/
def c6After : TreeState :=
  ⟨[(0, ⟨.leafPage, 0, 2, 3, 4, 1, false, [(1, 10), (2, 20), (3, 30), (4, 40)]⟩),
    (1, ⟨.leafPage, 1, 2, 1, 4, 3, false, [(4, 40), (6, 60), (6, 60), (7, 70)]⟩),
    (2, ⟨.internalPage, 2, -1, 3, 4, 0, true, [(1, 0), (4, 1), (7, 3)]⟩),
    (3, ⟨.leafPage, 3, 2, 3, 4, -1, false, [(7, 70), (8, 80), (9, 90)]⟩)],
   4, 2, 4, 4⟩

/-- The leaf page the C6 violation lives on. -/
def c6Node : BNode :=
  ⟨.leafPage, 1, 2, 1, 4, 3, false, [(4, 40), (6, 60), (6, 60), (7, 70)]⟩

/-- The C8 scenario: leaf_max_size 16, internal_max_size 16; the states
reached by inserting the keys {1..10} in the shuffled order
3, 1, 4, 10, 5, 9, 2, 6, 8, 7 (value 10·k for key k). -/
def c8Keys : List Int :=
  [3, 1, 4, 10, 5, 9, 2, 6, 8, 7]

def c8T1 : TreeState :=
  ⟨[(0, ⟨.leafPage, 0, -1, 1, 16, -1, true, [(3, 30)]⟩)], 1, 0, 16, 16⟩

def c8T2 : TreeState :=
  ⟨[(0, ⟨.leafPage, 0, -1, 2, 16, -1, true, [(1, 10), (3, 30)]⟩)], 1, 0, 16, 16⟩

def c8T3 : TreeState :=
  ⟨[(0, ⟨.leafPage, 0, -1, 3, 16, -1, true, [(1, 10), (3, 30), (4, 40)]⟩)], 1, 0, 16, 16⟩

def c8T4 : TreeState :=
  ⟨[(0, ⟨.leafPage, 0, -1, 4, 16, -1, true, [(1, 10), (3, 30), (4, 40), (10, 100)]⟩)],
   1, 0, 16, 16⟩

def c8T5 : TreeState :=
  ⟨[(0, ⟨.leafPage, 0, -1, 5, 16, -1, true,
      [(1, 10), (3, 30), (4, 40), (5, 50), (10, 100)]⟩)], 1, 0, 16, 16⟩

def c8T6 : TreeState :=
  ⟨[(0, ⟨.leafPage, 0, -1, 6, 16, -1, true,
      [(1, 10), (3, 30), (4, 40), (5, 50), (9, 90), (10, 100)]⟩)], 1, 0, 16, 16⟩

def c8T7 : TreeState :=
  ⟨[(0, ⟨.leafPage, 0, -1, 7, 16, -1, true,
      [(1, 10), (2, 20), (3, 30), (4, 40), (5, 50), (9, 90), (10, 100)]⟩)], 1, 0, 16, 16⟩

def c8T8 : TreeState :=
  ⟨[(0, ⟨.leafPage, 0, -1, 8, 16, -1, true,
      [(1, 10), (2, 20), (3, 30), (4, 40), (5, 50), (6, 60), (9, 90), (10, 100)]⟩)],
   1, 0, 16, 16⟩

def c8T9 : TreeState :=
  ⟨[(0, ⟨.leafPage, 0, -1, 9, 16, -1, true,
      [(1, 10), (2, 20), (3, 30), (4, 40), (5, 50), (6, 60), (8, 80), (9, 90), (10, 100)]⟩)],
   1, 0, 16, 16⟩

def c8Tree : TreeState :=
  ⟨[(0, ⟨.leafPage, 0, -1, 10, 16, -1, true,
      [(1, 10), (2, 20), (3, 30), (4, 40), (5, 50), (6, 60), (7, 70), (8, 80), (9, 90),
       (10, 100)]⟩)],
   1, 0, 16, 16⟩

/-- The C2 witness state: one frame holding page 5, pinned once, clean,
non-evictable. -/
def c2S : BPMState :=
  { pages := [⟨5, 1, false⟩], pageTable := [(5, 0)], freeList := [],
    evictFlag := [false], nextPageId := 6, diskWrites := [] }

/-- The C7 counterexample state: frame 0 holds dirty page 3; frame 1 is on
the free list (page id INVALID). -/
def c7S : BPMState :=
  { pages := [⟨3, 0, true⟩, ⟨-1, 0, false⟩], pageTable := [(3, 0)], freeList := [1],
    evictFlag := [true, false], nextPageId := 4, diskWrites := [] }

/-- The C3 counterexample state: the state after a single RecordAccess on the
fresh frame 1 (k = 2, 7 frames). -/
def c3R : Replacer :=
  (Replacer.run 7 2 [ROp.record 1]).getD (Replacer.init 7 2)

/-- The C5 counterexample state: frames 1 and 2 recorded once each, only
frame 2 marked evictable. -/
def c5R : Replacer :=
  (Replacer.run 7 2 [ROp.record 1, ROp.record 2, ROp.setEvictable 2 true]).getD
    (Replacer.init 7 2)

/-- The C5 witness trace and state: k = 2, 3 frames; frames 1 and 2 recorded
and marked evictable, frame 2 recorded a second time. -/
def c5WOps : List ROp :=
  [ROp.record 1, ROp.record 2, ROp.setEvictable 1 true, ROp.setEvictable 2 true,
   ROp.record 2]

def c5W : Replacer :=
  (Replacer.run 3 2 c5WOps).getD (Replacer.init 3 2)

/-- The C3 witness trace and state. -/
def c3WOps : List ROp :=
  [ROp.record 0, ROp.setEvictable 0 true, ROp.record 1]

def c3W : Replacer :=
  (Replacer.run 3 2 c3WOps).getD (Replacer.init 3 2)

/-! ## Claims -/

/-- C9: for every internal node state, every index, and every key,
BPlusTreeInternalPage::SetKeyAt leaves the node entirely unchanged — the key
is assigned into a local copy of the pair — so no caller can update a
separator key through it. -/
theorem claim_C9_setKeyAt_leaves_node_unchanged (n : BNode) (index key : Int) :
    setKeyAt n index key = n := rfl

/-- C4: the claim "Insert(k, v2) updates the stored value in place …
including when the bucket holding k is full" fails on the code: with
bucket_size 1, after Insert(0, 1) the bucket holding key 0 is full; the
source's InsertInternal finds the key and calls Bucket::Insert to update it,
but Bucket::Insert refuses on a full bucket before reaching its
update-in-place loop, so Insert(0, 2) leaves the table unchanged and Find(0)
still yields 1. -/
theorem claim_C4_full_bucket_duplicate_update_lost :
    (((HashTable.new 1).insertKV 0 1).map
        (fun t => ((t.getBucket (t.dir.getD (t.indexOf 0) 0)).isFull,
                   t.findV 0)) = some (true, some 1)) ∧
    ((((HashTable.new 1).insertKV 0 1).bind (fun t => t.insertKV 0 2)).map
        (fun t => t.findV 0) = some (some 1)) := by
  decide

/-- C1 construction, step 1: insert key 1 into the empty tree. -/
theorem c1_step1 : bptInsert (newTree 2 3) 1 10 = some (true, c1T1) := by
  decide

/-- C1 construction, step 2: insert key 2, filling the root leaf. -/
theorem c1_step2 : bptInsert c1T1 2 20 = some (true, c1Tree) := by
  decide

/-- C1: the claim "Insert of a key already present returns false … including
one where the target leaf is full" fails on the code when the leaf is full:
with leaf_max_size 2 and keys 1, 2 in the (full) root leaf, Insert(1, 99)
takes the split path, whose duplicate check returns the page id -1, and
Insert converts that page id to bool — true.  The tree is indeed left
unchanged. -/
theorem claim_C1_full_leaf_duplicate_insert_returns_true :
    bptInsert (newTree 2 3) 1 10 = some (true, c1T1) ∧
    bptInsert c1T1 2 20 = some (true, c1Tree) ∧
    c1Tree.leafMaxSize = 2 ∧
    (lookupPage c1Tree c1Tree.rootPageId).map BNode.size = some 2 ∧
    bptGetValue c1Tree 1 = some (true, some 10) ∧
    bptInsert c1Tree 1 99 = some (true, c1Tree) := by
  exact ⟨c1_step1, c1_step2, by decide⟩

/-- C6 construction: keys 1–9 inserted in ascending order (the fifth and
eighth inserts split a leaf), then 5 and 6 deleted. -/
theorem c6_step1 : bptInsert (newTree 4 4) 1 10 = some (true, c6T1) := by
  decide

theorem c6_step2 : bptInsert c6T1 2 20 = some (true, c6T2) := by
  decide

theorem c6_step3 : bptInsert c6T2 3 30 = some (true, c6T3) := by
  decide

theorem c6_step4 : bptInsert c6T3 4 40 = some (true, c6T4) := by
  decide

set_option maxHeartbeats 8000000 in
theorem c6_step5 : bptInsert c6T4 5 50 = some (true, c6T5) := by
  decide

theorem c6_step6 : bptInsert c6T5 6 60 = some (true, c6T6) := by
  decide

theorem c6_step7 : bptInsert c6T6 7 70 = some (true, c6T7) := by
  decide

set_option maxHeartbeats 8000000 in
theorem c6_step8 : bptInsert c6T7 8 80 = some (true, c6T8) := by
  decide

theorem c6_step9 : bptInsert c6T8 9 90 = some (true, c6T9) := by
  decide

set_option maxHeartbeats 2000000 in
theorem c6_del5 : bptRemove c6T9 5 = some c6Mid := by
  decide

set_option maxHeartbeats 2000000 in
theorem c6_del6 : bptRemove c6Mid 6 = some c6After := by
  decide

/-- C6: the half-full invariant is not re-established after a delete: there
is no redistribute path, and CoalesceLeafNode merges only when the combined
size stays under leaf_max_size.  With leaf_max_size 4 (⌈4/2⌉ = 2), building
the tree by inserting 1–9 and deleting 5 then 6 leaves the non-root leaf on
page 1 with size 1 — its siblings hold 3 entries each, so neither merge fires
and nothing redistributes. -/
theorem claim_C6_half_full_invariant_violated_after_delete :
    bptInsert (newTree 4 4) 1 10 = some (true, c6T1) ∧
    bptInsert c6T1 2 20 = some (true, c6T2) ∧
    bptInsert c6T2 3 30 = some (true, c6T3) ∧
    bptInsert c6T3 4 40 = some (true, c6T4) ∧
    bptInsert c6T4 5 50 = some (true, c6T5) ∧
    bptInsert c6T5 6 60 = some (true, c6T6) ∧
    bptInsert c6T6 7 70 = some (true, c6T7) ∧
    bptInsert c6T7 8 80 = some (true, c6T8) ∧
    bptInsert c6T8 9 90 = some (true, c6T9) ∧
    bptRemove c6T9 5 = some c6Mid ∧
    bptRemove c6Mid 6 = some c6After ∧
    lookupPage c6After 1 = some c6Node ∧
    c6Node.pageType = IndexPageType.leafPage ∧
    c6After.rootPageId ≠ 1 ∧
    c6Node.maxSize = 4 ∧
    c6Node.size = 1 ∧
    c6Node.size < (c6Node.maxSize + 1) / 2 := by
  exact ⟨c6_step1, c6_step2, c6_step3, c6_step4, c6_step5, c6_step6, c6_step7,
    c6_step8, c6_step9, c6_del5, c6_del6, by decide⟩

/-- C8 construction: the keys {1..10} inserted in the shuffled order
3, 1, 4, 10, 5, 9, 2, 6, 8, 7. -/
theorem c8_step1 : bptInsert (newTree 16 16) 3 30 = some (true, c8T1) := by
  decide

theorem c8_step2 : bptInsert c8T1 1 10 = some (true, c8T2) := by
  decide

theorem c8_step3 : bptInsert c8T2 4 40 = some (true, c8T3) := by
  decide

theorem c8_step4 : bptInsert c8T3 10 100 = some (true, c8T4) := by
  decide

theorem c8_step5 : bptInsert c8T4 5 50 = some (true, c8T5) := by
  decide

theorem c8_step6 : bptInsert c8T5 9 90 = some (true, c8T6) := by
  decide

theorem c8_step7 : bptInsert c8T6 2 20 = some (true, c8T7) := by
  decide

theorem c8_step8 : bptInsert c8T7 6 60 = some (true, c8T8) := by
  decide

theorem c8_step9 : bptInsert c8T8 8 80 = some (true, c8T9) := by
  decide

theorem c8_step10 : bptInsert c8T9 7 70 = some (true, c8Tree) := by
  decide

/-- C8: the scan does not visit 1,…,10.  Begin() returns a
default-constructed iterator and ignores the tree entirely; and even an
iterator placed on the leftmost leaf (the spec's intended Begin) misses key
10, because IsEnd() already reports true at the last occupied slot of the
final leaf — a position whose page id is 0, not INVALID_PAGE_ID, refuting the
claimed end representation. -/
theorem claim_C8_iterator_misses_last_key :
    (∀ (t1 t2 : TreeState) (junk : BIter), bptBegin t1 junk = bptBegin t2 junk) ∧
    bptInsert (newTree 16 16) 3 30 = some (true, c8T1) ∧
    bptInsert c8T1 1 10 = some (true, c8T2) ∧
    bptInsert c8T2 4 40 = some (true, c8T3) ∧
    bptInsert c8T3 10 100 = some (true, c8T4) ∧
    bptInsert c8T4 5 50 = some (true, c8T5) ∧
    bptInsert c8T5 9 90 = some (true, c8T6) ∧
    bptInsert c8T6 2 20 = some (true, c8T7) ∧
    bptInsert c8T7 6 60 = some (true, c8T8) ∧
    bptInsert c8T8 8 80 = some (true, c8T9) ∧
    bptInsert c8T9 7 70 = some (true, c8Tree) ∧
    leftmostIter c8Tree = some ⟨0, 0⟩ ∧
    iterCollect 64 c8Tree ⟨0, 0⟩ = some [1, 2, 3, 4, 5, 6, 7, 8, 9] ∧
    bptGetValue c8Tree 10 = some (true, some 100) ∧
    iterIsEnd c8Tree ⟨0, 9⟩ = some true ∧
    (lookupPage c8Tree 0).map (fun n => (arrGet n.arr 9).1) = some 10 ∧
    (0 : Int) ≠ -1 := by
  exact ⟨fun t1 t2 junk => rfl, c8_step1, c8_step2, c8_step3, c8_step4, c8_step5,
    c8_step6, c8_step7, c8_step8, c8_step9, c8_step10, by decide⟩

/-- C3, counterexample: after a single RecordAccess on the fresh frame 1,
Size() is 1 although no frame is marked evictable, and Evict returns frame 1
whose evictable flag is false. -/
theorem claim_C3_counterexample_fresh_frame_is_candidate :
    Replacer.run 7 2 [ROp.record 1] = some c3R ∧
    c3R.size = 1 ∧
    c3R.evictableFrames = [] ∧
    (c3R.evict).1 = some 1 ∧
    (c3R.histOf 1).evictable = false := by
  decide

/-- C5, counterexample: frames 1 and 2 each recorded once, frame 2 marked
evictable — the set of evictable frames is the non-empty {2}, so the claim
demands Evict return 2; the code returns the never-marked frame 1, which sits
in the candidate set with the earlier first access. -/
theorem claim_C5_counterexample_victim_not_among_evictable :
    Replacer.run 7 2 [ROp.record 1, ROp.record 2, ROp.setEvictable 2 true] = some c5R ∧
    c5R.evictableFrames = [2] ∧
    (c5R.evict).1 = some 1 ∧
    (c5R.histOf 1).evictable = false := by
  decide

/-- C7, counterexample: frame 1 sits on the free list with page id
INVALID_PAGE_ID, yet FlushAllPages hands it to WritePage — the disk sees a
write with page id -1, refuting "writes nothing for frames on the free
list". -/
theorem claim_C7_counterexample_free_frame_written :
    c7S.freeList = [1] ∧
    (c7S.pages.getD 1 defCPage).pageId = -1 ∧
    (flushAllPgsImp c7S).diskWrites = [3, -1] := by
  decide

/-- C2: for every buffer-pool state, UnpinPage returns false and changes
nothing when the page is not resident or its pin count is at zero (so a
second unpin after reaching zero is a no-op returning false); otherwise it
ORs the dirty argument into the page's dirty flag (never clearing a set
flag), decrements the pin count, and marks the frame evictable exactly when
the count reaches zero. -/
theorem claim_C2_unpin_contract (s : BPMState) (pid : Int) (d : Bool) :
    (ptFind s.pageTable pid = none → unpinPgImp s pid d = (false, s)) ∧
    (∀ f, ptFind s.pageTable pid = some f → (pageAt s f).pinCount ≤ 0 →
      unpinPgImp s pid d = (false, s)) ∧
    (∀ f, ptFind s.pageTable pid = some f → 0 < (pageAt s f).pinCount →
      unpinPgImp s pid d =
        (true,
          { s with
            pages := s.pages.set f
              { pageAt s f with
                isDirty := (pageAt s f).isDirty || d
                pinCount := (pageAt s f).pinCount - 1 }
            evictFlag :=
              if (pageAt s f).pinCount - 1 = 0
              then s.evictFlag.set f true else s.evictFlag })) := by
  refine ⟨?_, ?_, ?_⟩
  · intro h
    simp [unpinPgImp, h]
  · intro f h hpin
    simp [unpinPgImp, h, hpin]
  · intro f h hpin
    have hne : ¬ (pageAt s f).pinCount ≤ 0 := by omega
    have hnz : ¬ (pageAt s f).pinCount = 0 := by omega
    cases d with
    | false =>
      simp only [unpinPgImp, h, hne, hnz]
      simp [hnz]
      split <;> rfl
    | true =>
      simp only [unpinPgImp, h, hne, hnz]
      simp [hnz]
      split <;> rfl

/-- C2 witness: on a pool whose frame 0 holds page 5 with pin count 1,
UnpinPage(5, true) succeeds, dirties the page, drops the pin to zero and
marks frame 0 evictable. -/
theorem claim_C2_unpin_contract_witness :
    ptFind c2S.pageTable 5 = some 0 ∧
    0 < (c2S.pages.getD 0 defCPage).pinCount ∧
    unpinPgImp c2S 5 true =
      (true, { c2S with pages := [⟨5, 0, true⟩], evictFlag := [true] }) :=
  ⟨by decide, by decide,
    ((claim_C2_unpin_contract c2S 5 true).2.2 0 (by decide) (by decide)).trans (by decide)⟩

theorem getD_append_len (pre : List CPage) (p : CPage) (suf : List CPage) (d : CPage) :
    (pre ++ p :: suf).getD pre.length d = p := by
  induction pre with
  | nil => rfl
  | cons q pre ih => exact ih

theorem set_append_len (pre : List CPage) (p x : CPage) (suf : List CPage) :
    (pre ++ p :: suf).set pre.length x = pre ++ x :: suf := by
  induction pre with
  | nil => rfl
  | cons q pre ih => exact congrArg (List.cons q) ih

theorem flushAll_aux (suf : List CPage) :
    ∀ (pre : List CPage) (s : BPMState), s.pages = pre ++ suf →
      (List.range' pre.length suf.length).foldl flushPgImpInternal s =
        { s with
          pages := pre ++ suf.map (fun pg => { pg with isDirty := false })
          diskWrites := s.diskWrites ++ suf.map (fun pg => pg.pageId) } := by
  induction suf with
  | nil =>
    intro pre s hs
    cases s with
    | mk pages pt fl ef np dw =>
      simp only [List.append_nil] at hs
      subst hs
      simp
  | cons p suf ih =>
    intro pre s hs
    rw [List.length_cons, List.range'_succ, List.foldl_cons]
    have hflush : flushPgImpInternal s pre.length =
        { s with
          pages := pre ++ { p with isDirty := false } :: suf
          diskWrites := s.diskWrites ++ [p.pageId] } := by
      simp only [flushPgImpInternal, pageAt]
      rw [hs, getD_append_len, set_append_len]
    rw [hflush]
    have := ih (pre ++ [{ p with isDirty := false }])
      { s with
        pages := pre ++ { p with isDirty := false } :: suf
        diskWrites := s.diskWrites ++ [p.pageId] }
      (by simp)
    simpa using this

/-- C7, amended: FlushAllPages hands every frame of the pool to the disk
manager in frame order — resident pages and free-list frames alike (the
latter written under page id INVALID_PAGE_ID) — and clears every dirty
flag. -/
theorem claim_C7_amended_flushes_every_frame (s : BPMState) :
    flushAllPgsImp s =
      { s with
        pages := s.pages.map (fun pg => { pg with isDirty := false })
        diskWrites := s.diskWrites ++ s.pages.map (fun pg => pg.pageId) } := by
  have := flushAll_aux s.pages [] s rfl
  simpa [flushAllPgsImp, List.range_eq_range'] using this

/-- Applying a bound TreeM computation: definitional unfolding of the Monad
instance. -/
theorem treeM_bind_apply {α β : Type} (m : TreeM α) (f : α → TreeM β) (s : TreeState) :
    (m >>= f) s = match m s with | none => none | some (a, s1) => f a s1 := rfl

/-- The descent loop dereferences FetchPage(INVALID_PAGE_ID) immediately when
started on an invalid root. -/
theorem findLeafLoop_invalid (k : Int) (m : Nat) (t : TreeState)
    (hfetch : lookupPage t (-1) = none) : findLeafLoop k (m + 1) (-1) t = none := by
  show (fetchNode (-1) >>= fun n =>
    if n.pageType = IndexPageType.leafPage then pure (-1 : Int)
    else findLeafLoop k m (arrGet n.arr (scanBreakIdx n k - 1)).2) t = none
  rw [treeM_bind_apply]
  simp [fetchNode, hfetch]

/-- C10: GetValue and Remove carry the implicit precondition of a non-empty
tree: on root_page_id = INVALID_PAGE_ID they fetch the invalid page and
dereference the result unchecked, so the embedding yields none there — and a
non-empty tree (the four-key c10Tree) runs both to completion. -/
theorem claim_C10_getvalue_remove_need_nonempty_tree :
    (∀ (t : TreeState) (k : Int), t.rootPageId = -1 → lookupPage t (-1) = none →
      getValueM k t = none ∧ bptRemoveM k t = none) ∧
    c10Tree.rootPageId ≠ -1 ∧
    bptGetValue c10Tree 2 = some (true, some 20) ∧
    (bptRemoveM 3 c10Tree).isSome = true := by
  refine ⟨?_, by decide, by decide, by decide⟩
  intro t k hroot hfetch
  constructor
  · show (getTree >>= fun s =>
      findLeafLoop k (s.pages.length + 1) s.rootPageId >>= fun leafPid =>
      fetchNode leafPid >>= fun leaf =>
      match leafFindEqIdx leaf k with
      | some i => pure (true, some (arrGet leaf.arr i).2)
      | none => pure (false, none)) t = none
    rw [treeM_bind_apply]
    show (findLeafLoop k (t.pages.length + 1) t.rootPageId >>= fun leafPid =>
      fetchNode leafPid >>= fun leaf =>
      match leafFindEqIdx leaf k with
      | some i => pure (true, some (arrGet leaf.arr i).2)
      | none => pure (false, none)) t = none
    rw [treeM_bind_apply, hroot, findLeafLoop_invalid k t.pages.length t hfetch]
  · show (getTree >>= fun s =>
      findLeafLoop k (s.pages.length + 1) s.rootPageId >>= fun leafPid =>
      fetchNode leafPid >>= fun leaf =>
      match leafFindEqIdx leaf k with
      | none => pure ()
      | some i =>
        modifyNodeM leafPid (leafRemoveAtIndex i) >>= fun _ =>
        fetchNode leafPid >>= fun leaf2 =>
        if leaf2.size ≤ leaf2.maxSize / 2 then
          coalesceLeafNode (s.pages.length + 8) leafPid >>= fun _ => pure ()
        else pure ()) t = none
    rw [treeM_bind_apply]
    show (findLeafLoop k (t.pages.length + 1) t.rootPageId >>= fun leafPid =>
      fetchNode leafPid >>= fun leaf =>
      match leafFindEqIdx leaf k with
      | none => pure ()
      | some i =>
        modifyNodeM leafPid (leafRemoveAtIndex i) >>= fun _ =>
        fetchNode leafPid >>= fun leaf2 =>
        if leaf2.size ≤ leaf2.maxSize / 2 then
          coalesceLeafNode (t.pages.length + 8) leafPid >>= fun _ => pure ()
        else pure ()) t = none
    rw [treeM_bind_apply, hroot, findLeafLoop_invalid k t.pages.length t hfetch]

/-- C10 witness: the freshly constructed (empty) tree has an INVALID root and
no page -1, so GetValue and Remove hit the unchecked dereference on it. -/
theorem claim_C10_witness :
    (newTree 4 4).rootPageId = -1 ∧
    lookupPage (newTree 4 4) (-1) = none ∧
    getValueM 7 (newTree 4 4) = none ∧
    bptRemoveM 7 (newTree 4 4) = none :=
  ⟨by decide, by decide,
    ((claim_C10_getvalue_remove_need_nonempty_tree.1 (newTree 4 4) 7 (by decide)
      (by decide)).1),
    ((claim_C10_getvalue_remove_need_nonempty_tree.1 (newTree 4 4) 7 (by decide)
      (by decide)).2)⟩

/-! ### Association-list and candidate-set lemmas for the replacer -/

theorem mapFind_eq_none (m : List (Nat × FrameHist)) (f : Nat) :
    mapFind m f = none ↔ f ∉ m.map Prod.fst := by
  induction m with
  | nil => simp [mapFind]
  | cons e rest ih =>
    simp only [mapFind, List.find?_cons, List.map_cons, List.mem_cons] at ih ⊢
    by_cases h : e.1 = f
    · simp [h]
    · simp only [show (e.1 == f) = false by simpa using h]
      rw [ih]
      constructor
      · intro hn hor
        rcases hor with h1 | h2
        · exact h h1.symm
        · exact hn h2
      · intro hn h2
        exact hn (Or.inr h2)

theorem mapFind_mem_keys {m : List (Nat × FrameHist)} {f : Nat} {fh : FrameHist}
    (h : mapFind m f = some fh) : f ∈ m.map Prod.fst := by
  by_contra hmem
  rw [← mapFind_eq_none] at hmem
  rw [hmem] at h
  exact Option.noConfusion h

theorem mapFind_append_left {m : List (Nat × FrameHist)} {f : Nat} {fh : FrameHist}
    (h : mapFind m f = some fh) (m2 : List (Nat × FrameHist)) :
    mapFind (m ++ m2) f = some fh := by
  induction m with
  | nil => exact absurd h (by simp [mapFind])
  | cons e rest ih =>
    by_cases he : e.1 = f
    · simp only [mapFind, List.cons_append, List.find?_cons, he] at h ⊢
      simpa using h
    · simp only [mapFind, List.cons_append, List.find?_cons] at h ih ⊢
      simp only [show (e.1 == f) = false by simpa using he] at h ⊢
      exact ih h

theorem mapFind_append_none {m : List (Nat × FrameHist)} {f g : Nat} {fh : FrameHist}
    (h : mapFind m g = none) :
    mapFind (m ++ [(f, fh)]) g = if g = f then some fh else none := by
  induction m with
  | nil =>
    by_cases hgf : g = f
    · simp [mapFind, hgf]
    · have hfg : (f == g) = false := by simpa using fun hq : f = g => hgf hq.symm
      simp [mapFind, hgf, hfg]
  | cons e rest ih =>
    by_cases he : e.1 = g
    · simp [mapFind, List.find?_cons, he] at h
    · simp only [mapFind, List.cons_append, List.find?_cons] at h ih ⊢
      simp only [show (e.1 == g) = false by simpa using he] at h ⊢
      exact ih h

theorem mapFind_mapSet (m : List (Nat × FrameHist)) (f g : Nat) (fh : FrameHist) :
    mapFind (mapSet m f fh) g = if g = f then some fh else mapFind m g := by
  induction m with
  | nil =>
    by_cases hgf : g = f
    · simp [mapSet, mapFind, hgf]
    · have hfg : (f == g) = false := by simpa using fun hq : f = g => hgf hq.symm
      simp [mapSet, mapFind, hgf, hfg]
  | cons e rest ih =>
    by_cases he : e.1 = f
    · by_cases hgf : g = f
      · simp [mapSet, he, mapFind, List.find?_cons, hgf]
      · have hfg : (f == g) = false := by simpa using fun hq : f = g => hgf hq.symm
        have heg : (e.1 == g) = false := by
          simpa using fun hq : e.1 = g => hgf ((he ▸ hq : f = g)).symm
        simp [mapSet, he, mapFind, List.find?_cons, hfg, hgf, heg]
    · by_cases hge : e.1 = g
      · have hgf : ¬ g = f := fun hq => he (hge.trans hq)
        simp only [mapSet, he, if_false, mapFind, List.find?_cons, hge, hgf]
        simp
      · simp only [mapSet, he, if_false, mapFind, List.find?_cons,
          show (e.1 == g) = false by simpa using hge]
        simpa [mapFind] using ih

theorem keys_mapSet_mem {m : List (Nat × FrameHist)} {f : Nat} (fh : FrameHist)
    (h : f ∈ m.map Prod.fst) :
    (mapSet m f fh).map Prod.fst = m.map Prod.fst := by
  induction m with
  | nil => simp at h
  | cons e rest ih =>
    by_cases he : e.1 = f
    · simp [mapSet, he]
    · have hrest : f ∈ rest.map Prod.fst := by
        rcases List.mem_map.mp h with ⟨x, hx, hfst⟩
        rcases List.mem_cons.mp hx with hx1 | hx1
        · exact absurd (hx1 ▸ hfst) he
        · exact List.mem_map.mpr ⟨x, hx1, hfst⟩
      simp [mapSet, he, ih hrest]

theorem mapFind_mapErase (m : List (Nat × FrameHist)) (f g : Nat) :
    mapFind (mapErase m f) g = if g = f then none else mapFind m g := by
  induction m with
  | nil => simp [mapErase, mapFind]
  | cons e rest ih =>
    by_cases he : e.1 = f
    · simp only [mapErase, List.filter_cons, show (!(e.1 == f)) = false by simpa using he,
        if_false, Bool.false_eq_true]
      simp only [mapErase] at ih
      rw [ih]
      by_cases hgf : g = f
      · simp [hgf]
      · have heg : (e.1 == g) = false := by
          simpa using fun hq : e.1 = g => hgf ((he ▸ hq : f = g)).symm
        simp only [hgf, if_false, mapFind, List.find?_cons, heg]
    · simp only [mapErase, List.filter_cons, show (!(e.1 == f)) = true by simpa using he,
        if_true]
      by_cases hge : e.1 = g
      · have hgf : ¬ g = f := fun hq => he (hge.trans hq)
        simp [mapFind, List.find?_cons, hge, hgf]
      · simp only [mapFind, List.find?_cons, show (e.1 == g) = false by simpa using hge]
        simpa [mapErase, mapFind] using ih

theorem keys_mapErase (m : List (Nat × FrameHist)) (f : Nat) :
    (mapErase m f).map Prod.fst = (m.map Prod.fst).filter (fun g => !(g == f)) := by
  induction m with
  | nil => rfl
  | cons e rest ih =>
    by_cases he : e.1 = f
    · simp only [mapErase, List.filter_cons, List.map_cons] at ih ⊢
      simp [show (!(e.1 == f)) = false by simpa using he, ih]
    · simp only [mapErase, List.filter_cons, List.map_cons] at ih ⊢
      simp [show (!(e.1 == f)) = true by simpa using he, ih]

theorem mem_insertCand {c : List Nat} {f g : Nat} :
    g ∈ insertCand c f ↔ g ∈ c ∨ g = f := by
  by_cases h : f ∈ c
  · simp only [insertCand, h, if_true]
    constructor
    · exact Or.inl
    · rintro (hg | rfl) <;> assumption
  · simp [insertCand, h]

theorem nodup_insertCand {c : List Nat} (f : Nat) (h : c.Nodup) :
    (insertCand c f).Nodup := by
  by_cases hf : f ∈ c
  · simpa [insertCand, hf] using h
  · simp [insertCand, hf, List.nodup_append, h, hf]

theorem mem_removeCand {c : List Nat} {f g : Nat} :
    g ∈ removeCand c f ↔ g ∈ c ∧ g ≠ f := by
  simp [removeCand]

theorem nodup_removeCand {c : List Nat} (f : Nat) (h : c.Nodup) :
    (removeCand c f).Nodup :=
  h.filter _

theorem length_removeCand_lt {n : Nat} {c keys : List Nat} {f : Nat}
    (hcnd : c.Nodup) (hsub : ∀ g ∈ c, g ∈ keys) (hknd : keys.Nodup)
    (hklt : ∀ g ∈ keys, g < n) (hf : f ∈ keys) :
    (removeCand c f).length < n := by
  have hsub2 : removeCand c f ⊆ keys.filter (fun g => !(g == f)) := by
    intro g hg
    rw [mem_removeCand] at hg
    exact List.mem_filter.mpr ⟨hsub g hg.1, by simpa using hg.2⟩
  have hnd2 : (removeCand c f).Nodup := nodup_removeCand f hcnd
  have hlen1 : (removeCand c f).length ≤ (keys.filter (fun g => !(g == f))).length :=
    (List.subperm_of_subset hnd2 hsub2).length_le
  have hlen2 : (keys.filter (fun g => !(g == f))).length < keys.length := by
    apply List.length_filter_lt_length_iff_exists.mpr
    exact ⟨f, hf, by simp⟩
  have hlen3 : keys.length ≤ n := by
    have hsubr : keys ⊆ List.range n := fun g hg => List.mem_range.mpr (hklt g hg)
    simpa using (List.subperm_of_subset hknd hsubr).length_le
  omega

theorem record_hist (k : Nat) (fh : FrameHist) (ts : Int) :
    (FrameHist.record k fh ts).hist =
      ts :: (if k ≤ fh.hist.length then fh.hist.dropLast else fh.hist) := rfl

theorem record_evictable (k : Nat) (fh : FrameHist) (ts : Int) :
    (FrameHist.record k fh ts).evictable = fh.evictable := rfl

theorem record_hist_length {k : Nat} (hk : 1 ≤ k) {fh : FrameHist}
    (hlen : fh.hist.length ≤ k) (ts : Int) :
    1 ≤ (FrameHist.record k fh ts).hist.length ∧
      (FrameHist.record k fh ts).hist.length ≤ k := by
  rw [record_hist]
  by_cases h : k ≤ fh.hist.length
  · simp only [h, if_true, List.length_cons, List.length_dropLast]
    omega
  · simp only [h, if_false, List.length_cons]
    omega

theorem record_hist_subset {k : Nat} {fh : FrameHist} {ts : Int} {a : Int}
    (ha : a ∈ (FrameHist.record k fh ts).hist) : a = ts ∨ a ∈ fh.hist := by
  rw [record_hist] at ha
  rcases List.mem_cons.mp ha with h | h
  · exact Or.inl h
  · right
    by_cases hc : k ≤ fh.hist.length
    · simp only [hc, if_true] at h
      exact List.dropLast_subset _ h
    · simpa only [hc, if_false] using h

theorem record_hist_sorted {k : Nat} {fh : FrameHist} {ts : Int}
    (hs : fh.hist.Chain' (fun a b => b < a)) (hts : ∀ t ∈ fh.hist, t < ts) :
    (FrameHist.record k fh ts).hist.Chain' (fun a b => b < a) := by
  rw [record_hist]
  rw [List.chain'_cons']
  constructor
  · intro y hy
    by_cases hc : k ≤ fh.hist.length
    · simp only [hc, if_true] at hy
      exact hts y (List.dropLast_subset _ (List.mem_of_mem_head? hy))
    · simp only [hc, if_false] at hy
      exact hts y (List.mem_of_mem_head? hy)
  · by_cases hc : k ≤ fh.hist.length
    · simp only [hc, if_true]
      exact hs.prefix (List.dropLast_prefix _)
    · simpa only [hc, if_false] using hs

theorem rinv_recordAccess {n k : Nat} {r : Replacer} (hi : RInv n k r) {f : Nat}
    (hf : f < n) : RInv n k (r.recordAccess f) := by
  rcases hfind : mapFind r.map f with _ | fh
  · -- a frame never seen before: created non-evictable but inserted into the set
    have hfk : f ∉ r.map.map Prod.fst := (mapFind_eq_none _ _).mp hfind
    have hnf : (FrameHist.record r.k ⟨false, []⟩ r.clock).hist = [r.clock] := by
      rw [record_hist]; simp
    refine ⟨?_, ?_, ?_, ?_, ?_, ?_, ?_, ?_, ?_, ?_, ?_, ?_⟩ <;>
      (try simp only [Replacer.recordAccess, hfind])
    · exact hi.kPos
    · exact hi.kEq
    · exact hi.nEq
    · simp only [List.map_append, List.map_cons, List.map_nil]
      rw [List.nodup_append]
      exact ⟨hi.keysNodup, List.nodup_singleton f, by
        intro a ha hb
        simp only [List.mem_singleton] at hb
        exact hfk (hb ▸ ha)⟩
    · intro g hg
      rw [List.map_append] at hg
      rcases List.mem_append.mp hg with h | h
      · exact hi.keysLt g h
      · simp only [List.map_cons, List.map_nil, List.mem_singleton] at h
        exact h ▸ hf
    · exact nodup_insertCand f hi.candNodup
    · intro g hg
      rw [List.map_append]
      rcases mem_insertCand.mp hg with h | h
      · exact List.mem_append.mpr (Or.inl (hi.candSub g h))
      · exact List.mem_append.mpr (Or.inr (by simp [h]))
    · intro g fh2 hg hev
      rcases hgo : mapFind r.map g with _ | fh1
      · rw [mapFind_append_none hgo] at hg
        by_cases hgf : g = f
        · rw [if_pos hgf] at hg
          injection hg with hg
          rw [← hg, record_evictable] at hev
          exact absurd hev (by simp)
        · rw [if_neg hgf] at hg
          exact Option.noConfusion hg
      · rw [mapFind_append_left hgo] at hg
        injection hg with hg
        exact mem_insertCand.mpr (Or.inl (hi.evictableInCand g fh1 hgo (hg ▸ hev)))
    · intro g fh2 hg
      rcases hgo : mapFind r.map g with _ | fh1
      · rw [mapFind_append_none hgo] at hg
        by_cases hgf : g = f
        · rw [if_pos hgf] at hg
          injection hg with hg
          rw [← hg, hnf]
          exact ⟨by simp, by simpa using hi.kPos⟩
        · rw [if_neg hgf] at hg
          exact Option.noConfusion hg
      · rw [mapFind_append_left hgo] at hg
        injection hg with hg
        exact hg ▸ hi.histLen g fh1 hgo
    · intro g fh2 hg
      rcases hgo : mapFind r.map g with _ | fh1
      · rw [mapFind_append_none hgo] at hg
        by_cases hgf : g = f
        · rw [if_pos hgf] at hg
          injection hg with hg
          rw [← hg, hnf]
          simp
        · rw [if_neg hgf] at hg
          exact Option.noConfusion hg
      · rw [mapFind_append_left hgo] at hg
        injection hg with hg
        exact hg ▸ hi.histSorted g fh1 hgo
    · intro g fh2 hg t ht
      rcases hgo : mapFind r.map g with _ | fh1
      · rw [mapFind_append_none hgo] at hg
        by_cases hgf : g = f
        · rw [if_pos hgf] at hg
          injection hg with hg
          rw [← hg, hnf] at ht
          simp only [List.mem_singleton] at ht
          omega
        · rw [if_neg hgf] at hg
          exact Option.noConfusion hg
      · rw [mapFind_append_left hgo] at hg
        injection hg with hg
        have := hi.tsLt g fh1 hgo t (by rw [hg]; exact ht)
        omega
    · intro g1 g2 fh1 fh2 hne hg1 hg2 a ha b hb
      have split : ∀ (g : Nat) (fhx : FrameHist),
          mapFind (r.map ++ [(f, FrameHist.record r.k ⟨false, []⟩ r.clock)]) g = some fhx →
          (g = f ∧ fhx.hist = [r.clock]) ∨ mapFind r.map g = some fhx := by
        intro g fhx hg
        rcases hgo : mapFind r.map g with _ | fh0
        · rw [mapFind_append_none hgo] at hg
          by_cases hgf : g = f
          · rw [if_pos hgf] at hg
            injection hg with hg
            exact Or.inl ⟨hgf, hg ▸ hnf⟩
          · rw [if_neg hgf] at hg
            exact Option.noConfusion hg
        · rw [mapFind_append_left hgo] at hg
          exact Or.inr hg
      rcases split g1 fh1 hg1 with ⟨hq1, hh1⟩ | ho1 <;>
        rcases split g2 fh2 hg2 with ⟨hq2, hh2⟩ | ho2
      · exact absurd (hq1.trans hq2.symm) hne
      · rw [hh1] at ha
        simp only [List.mem_singleton] at ha
        have := hi.tsLt g2 fh2 ho2 b hb
        omega
      · rw [hh2] at hb
        simp only [List.mem_singleton] at hb
        have := hi.tsLt g1 fh1 ho1 a ha
        omega
      · exact hi.histDisj g1 g2 fh1 fh2 hne ho1 ho2 a ha b hb
  · -- a repeat access: pulled out of the set, history extended, re-inserted
    -- only when evictable
    have hfk : f ∈ r.map.map Prod.fst := mapFind_mem_keys hfind
    have hkr : r.k = k := hi.kEq
    have hlenf := hi.histLen f fh hfind
    have hfh2 := record_hist_length (hkr ▸ hi.kPos) hlenf.2 r.clock
    have hstate : r.recordAccess f =
        { r with map := mapSet r.map f (FrameHist.record r.k fh r.clock)
                 clock := r.clock + 1
                 cand := if fh.evictable
                         then insertCand (removeCand r.cand f) f
                         else removeCand r.cand f } := by
      by_cases hev : fh.evictable <;>
        simp [Replacer.recordAccess, hfind, hev, record_evictable]
    have hmem : ∀ g, g ∈ (if fh.evictable
        then insertCand (removeCand r.cand f) f
        else removeCand r.cand f) ↔
        ((g ∈ r.cand ∧ g ≠ f) ∨ (fh.evictable = true ∧ g = f)) := by
      intro g
      by_cases hev : fh.evictable
      · simp only [hev, if_true, mem_insertCand, mem_removeCand]
        tauto
      · have hev2 : fh.evictable = false := by simpa using hev
        simp [hev2, mem_removeCand]
    have hnodup : (if fh.evictable
        then insertCand (removeCand r.cand f) f
        else removeCand r.cand f).Nodup := by
      by_cases hev : fh.evictable
      · simpa [hev] using nodup_insertCand f (nodup_removeCand f hi.candNodup)
      · have hev2 : fh.evictable = false := by simpa using hev
        simpa [hev2] using nodup_removeCand f hi.candNodup
    rw [hstate]
    refine ⟨hi.kPos, hi.kEq, hi.nEq, ?_, ?_, hnodup, ?_, ?_, ?_, ?_, ?_, ?_⟩
    · rw [keys_mapSet_mem _ hfk]
      exact hi.keysNodup
    · rw [keys_mapSet_mem _ hfk]
      exact hi.keysLt
    · intro g hg
      rw [keys_mapSet_mem _ hfk]
      rcases (hmem g).mp hg with ⟨h1, _⟩ | ⟨_, h2⟩
      · exact hi.candSub g h1
      · exact h2 ▸ hfk
    · intro g fh3 hg hev3
      rw [mapFind_mapSet] at hg
      by_cases hgf : g = f
      · rw [if_pos hgf] at hg
        injection hg with hg
        rw [← hg, record_evictable] at hev3
        exact (hmem g).mpr (Or.inr ⟨hev3, hgf⟩)
      · rw [if_neg hgf] at hg
        exact (hmem g).mpr (Or.inl ⟨hi.evictableInCand g fh3 hg hev3, hgf⟩)
    · intro g fh3 hg
      rw [mapFind_mapSet] at hg
      by_cases hgf : g = f
      · rw [if_pos hgf] at hg
        injection hg with hg
        exact hg ▸ (hkr ▸ hfh2)
      · rw [if_neg hgf] at hg
        exact hi.histLen g fh3 hg
    · intro g fh3 hg
      rw [mapFind_mapSet] at hg
      by_cases hgf : g = f
      · rw [if_pos hgf] at hg
        injection hg with hg
        exact hg ▸ record_hist_sorted (hi.histSorted f fh hfind) (hi.tsLt f fh hfind)
      · rw [if_neg hgf] at hg
        exact hi.histSorted g fh3 hg
    · intro g fh3 hg t ht
      show t < r.clock + 1
      rw [mapFind_mapSet] at hg
      by_cases hgf : g = f
      · rw [if_pos hgf] at hg
        injection hg with hg
        rw [← hg] at ht
        rcases record_hist_subset ht with h | h
        · omega
        · have := hi.tsLt f fh hfind t h
          omega
      · rw [if_neg hgf] at hg
        have := hi.tsLt g fh3 hg t ht
        omega
    · intro g1 g2 fh1x fh2x hne hg1 hg2 a ha b hb
      rw [mapFind_mapSet] at hg1 hg2
      by_cases h1f : g1 = f <;> by_cases h2f : g2 = f
      · exact absurd (h1f.trans h2f.symm) hne
      · rw [if_pos h1f] at hg1
        rw [if_neg h2f] at hg2
        injection hg1 with hg1
        rw [← hg1] at ha
        rcases record_hist_subset ha with h | h
        · have := hi.tsLt g2 fh2x hg2 b hb
          omega
        · exact hi.histDisj f g2 fh fh2x (h1f ▸ hne) hfind hg2 a h b hb
      · rw [if_neg h1f] at hg1
        rw [if_pos h2f] at hg2
        injection hg2 with hg2
        rw [← hg2] at hb
        rcases record_hist_subset hb with h | h
        · have := hi.tsLt g1 fh1x hg1 a ha
          omega
        · exact hi.histDisj g1 f fh1x fh (h2f ▸ hne) hg1 hfind a ha b h
      · rw [if_neg h1f] at hg1
        rw [if_neg h2f] at hg2
        exact hi.histDisj g1 g2 fh1x fh2x hne hg1 hg2 a ha b hb

theorem rinv_erase {n k : Nat} {r : Replacer} (hi : RInv n k r) (f : Nat) :
    RInv n k { r with cand := removeCand r.cand f, map := mapErase r.map f } := by
  refine ⟨hi.kPos, hi.kEq, hi.nEq, ?_, ?_, ?_, ?_, ?_, ?_, ?_, ?_, ?_⟩
  · rw [keys_mapErase]
    exact hi.keysNodup.filter _
  · intro g hg
    rw [keys_mapErase] at hg
    exact hi.keysLt g (List.mem_of_mem_filter hg)
  · exact nodup_removeCand f hi.candNodup
  · intro g hg
    rw [keys_mapErase]
    rcases mem_removeCand.mp hg with ⟨h1, h2⟩
    exact List.mem_filter.mpr ⟨hi.candSub g h1, by simpa using h2⟩
  · intro g fh hg hev
    rw [mapFind_mapErase] at hg
    by_cases hgf : g = f
    · rw [if_pos hgf] at hg
      exact Option.noConfusion hg
    · rw [if_neg hgf] at hg
      exact mem_removeCand.mpr ⟨hi.evictableInCand g fh hg hev, hgf⟩
  · intro g fh hg
    rw [mapFind_mapErase] at hg
    by_cases hgf : g = f
    · rw [if_pos hgf] at hg
      exact Option.noConfusion hg
    · rw [if_neg hgf] at hg
      exact hi.histLen g fh hg
  · intro g fh hg
    rw [mapFind_mapErase] at hg
    by_cases hgf : g = f
    · rw [if_pos hgf] at hg
      exact Option.noConfusion hg
    · rw [if_neg hgf] at hg
      exact hi.histSorted g fh hg
  · intro g fh hg t ht
    rw [mapFind_mapErase] at hg
    by_cases hgf : g = f
    · rw [if_pos hgf] at hg
      exact Option.noConfusion hg
    · rw [if_neg hgf] at hg
      exact hi.tsLt g fh hg t ht
  · intro g1 g2 fh1 fh2 hne hg1 hg2 a ha b hb
    rw [mapFind_mapErase] at hg1 hg2
    by_cases h1f : g1 = f
    · rw [if_pos h1f] at hg1
      exact Option.noConfusion hg1
    · rw [if_neg h1f] at hg1
      by_cases h2f : g2 = f
      · rw [if_pos h2f] at hg2
        exact Option.noConfusion hg2
      · rw [if_neg h2f] at hg2
        exact hi.histDisj g1 g2 fh1 fh2 hne hg1 hg2 a ha b hb

theorem rinv_setEvictable {n k : Nat} {r r2 : Replacer} (hi : RInv n k r) {f : Nat}
    {b : Bool} (h : r.setEvictable f b = some r2) : RInv n k r2 := by
  rcases hfind : mapFind r.map f with _ | fh
  · rw [Replacer.setEvictable, hfind] at h
    exact Option.noConfusion h
  · rw [Replacer.setEvictable, hfind] at h
    injection h with h
    have hguard : (removeCand r.cand f).length < r.numFrames := by
      rw [hi.nEq]
      exact length_removeCand_lt hi.candNodup hi.candSub hi.keysNodup hi.keysLt
        (mapFind_mem_keys hfind)
    have hfk : f ∈ r.map.map Prod.fst := mapFind_mem_keys hfind
    have hstate : r2 = { r with
        map := mapSet r.map f { fh with evictable := b }
        cand := if b then insertCand (removeCand r.cand f) f
                else removeCand r.cand f } := by
      rw [← h]
      cases b with
      | false => simp
      | true => simp [hguard]
    have hmem : ∀ g, g ∈ (if b then insertCand (removeCand r.cand f) f
        else removeCand r.cand f) ↔
        ((g ∈ r.cand ∧ g ≠ f) ∨ (b = true ∧ g = f)) := by
      intro g
      cases b with
      | true =>
        simp only [if_true, mem_insertCand, mem_removeCand]
        tauto
      | false =>
        simp [mem_removeCand]
    have hnodup : (if b then insertCand (removeCand r.cand f) f
        else removeCand r.cand f).Nodup := by
      cases b with
      | true => simpa using nodup_insertCand f (nodup_removeCand f hi.candNodup)
      | false => simpa using nodup_removeCand f hi.candNodup
    rw [hstate]
    refine ⟨hi.kPos, hi.kEq, hi.nEq, ?_, ?_, hnodup, ?_, ?_, ?_, ?_, ?_, ?_⟩
    · rw [keys_mapSet_mem _ hfk]
      exact hi.keysNodup
    · rw [keys_mapSet_mem _ hfk]
      exact hi.keysLt
    · intro g hg
      rw [keys_mapSet_mem _ hfk]
      rcases (hmem g).mp hg with ⟨h1, _⟩ | ⟨_, h2⟩
      · exact hi.candSub g h1
      · exact h2 ▸ hfk
    · intro g fh3 hg hev3
      rw [mapFind_mapSet] at hg
      by_cases hgf : g = f
      · rw [if_pos hgf] at hg
        injection hg with hg
        rw [← hg] at hev3
        exact (hmem g).mpr (Or.inr ⟨hev3, hgf⟩)
      · rw [if_neg hgf] at hg
        exact (hmem g).mpr (Or.inl ⟨hi.evictableInCand g fh3 hg hev3, hgf⟩)
    · intro g fh3 hg
      rw [mapFind_mapSet] at hg
      by_cases hgf : g = f
      · rw [if_pos hgf] at hg
        injection hg with hg
        rw [← hg]
        exact hi.histLen f fh hfind
      · rw [if_neg hgf] at hg
        exact hi.histLen g fh3 hg
    · intro g fh3 hg
      rw [mapFind_mapSet] at hg
      by_cases hgf : g = f
      · rw [if_pos hgf] at hg
        injection hg with hg
        rw [← hg]
        exact hi.histSorted f fh hfind
      · rw [if_neg hgf] at hg
        exact hi.histSorted g fh3 hg
    · intro g fh3 hg t ht
      show t < r.clock
      rw [mapFind_mapSet] at hg
      by_cases hgf : g = f
      · rw [if_pos hgf] at hg
        injection hg with hg
        rw [← hg] at ht
        exact hi.tsLt f fh hfind t ht
      · rw [if_neg hgf] at hg
        exact hi.tsLt g fh3 hg t ht
    · intro g1 g2 fh1x fh2x hne hg1 hg2 a ha b2 hb
      rw [mapFind_mapSet] at hg1 hg2
      by_cases h1f : g1 = f <;> by_cases h2f : g2 = f
      · exact absurd (h1f.trans h2f.symm) hne
      · rw [if_pos h1f] at hg1
        rw [if_neg h2f] at hg2
        injection hg1 with hg1
        rw [← hg1] at ha
        exact hi.histDisj f g2 fh fh2x (h1f ▸ hne) hfind hg2 a ha b2 hb
      · rw [if_neg h1f] at hg1
        rw [if_pos h2f] at hg2
        injection hg2 with hg2
        rw [← hg2] at hb
        exact hi.histDisj g1 f fh1x fh (h2f ▸ hne) hg1 hfind a ha b2 hb
      · rw [if_neg h1f] at hg1
        rw [if_neg h2f] at hg2
        exact hi.histDisj g1 g2 fh1x fh2x hne hg1 hg2 a ha b2 hb

theorem rinv_removeFrame {n k : Nat} {r r2 : Replacer} (hi : RInv n k r) {f : Nat}
    (h : r.removeFrame f = some r2) : RInv n k r2 := by
  rcases hfind : mapFind r.map f with _ | fh
  · simp only [Replacer.removeFrame, hfind] at h
    injection h with h
    exact h ▸ hi
  · simp only [Replacer.removeFrame, hfind] at h
    by_cases hev : fh.evictable = true
    · rw [if_pos hev] at h
      injection h with h
      exact h ▸ rinv_erase hi f
    · rw [if_neg hev] at h
      exact Option.noConfusion h

theorem rinv_evict {n k : Nat} {r : Replacer} (hi : RInv n k r) :
    RInv n k (r.evict).2 := by
  rcases hc : r.cand with _ | ⟨c, cs⟩
  · simpa [Replacer.evict, hc] using hi
  · simpa [Replacer.evict, hc] using rinv_erase hi r.candMax

theorem rinv_init {n k : Nat} (hk : 1 ≤ k) : RInv n k (Replacer.init n k) := by
  refine ⟨hk, rfl, rfl, ?_, ?_, ?_, ?_, ?_, ?_, ?_, ?_, ?_⟩ <;>
    simp [Replacer.init, mapFind]

theorem rinv_step {n k : Nat} {r r2 : Replacer} (hi : RInv n k r) {op : ROp}
    (hok : op.frameOk n = true) (h : r.step op = some r2) : RInv n k r2 := by
  cases op with
  | record f =>
    injection h with h
    have hf : f < n := by simpa [ROp.frameOk] using hok
    exact h ▸ rinv_recordAccess hi hf
  | setEvictable f b => exact rinv_setEvictable hi h
  | remove f => exact rinv_removeFrame hi h
  | evict =>
    injection h with h
    exact h ▸ rinv_evict hi

theorem rinv_foldlM {n k : Nat} (ops : List ROp) :
    ∀ (r0 r : Replacer), RInv n k r0 → (∀ op ∈ ops, op.frameOk n = true) →
      ops.foldlM Replacer.step r0 = some r → RInv n k r := by
  induction ops with
  | nil =>
    intro r0 r hi _ h
    injection h with h
    exact h ▸ hi
  | cons op ops ih =>
    intro r0 r hi hok h
    rw [List.foldlM_cons] at h
    rcases hstep : r0.step op with _ | r1
    · rw [hstep] at h
      exact Option.noConfusion h
    · rw [hstep] at h
      exact ih r1 r (rinv_step hi (hok op (List.mem_cons_self op ops)) hstep)
        (fun o ho => hok o (List.mem_cons_of_mem op ho)) h

/-- Any state a valid trace reaches satisfies the reachability invariant. -/
theorem rinv_run {n k : Nat} {ops : List ROp} {r : Replacer} (hk : 1 ≤ k)
    (hok : ∀ op ∈ ops, op.frameOk n = true) (h : Replacer.run n k ops = some r) :
    RInv n k r :=
  rinv_foldlM ops (Replacer.init n k) r (rinv_init hk) hok h

theorem histBack_mem : ∀ (l : List Int), l ≠ [] → histBack l ∈ l := by
  intro l hl
  induction l with
  | nil => exact absurd rfl hl
  | cons a t ih =>
    cases t with
    | nil => simp [histBack]
    | cons b t2 =>
      have : histBack (a :: b :: t2) = histBack (b :: t2) := by
        simp [histBack]
      rw [this]
      exact List.mem_cons_of_mem a (ih (by simp))

theorem histMin_eq_histBack : ∀ (l : List Int), l.Chain' (fun a b => b < a) → l ≠ [] →
    histMin l = histBack l := by
  intro l
  induction l with
  | nil => intro _ h; exact absurd rfl h
  | cons a t ih =>
    intro hs _
    cases t with
    | nil => simp [histMin, histBack]
    | cons b t2 =>
      have hba : b < a := (List.chain'_cons.mp hs).1
      have ht : (b :: t2).Chain' (fun a b => b < a) := (List.chain'_cons.mp hs).2
      have h1 : histMin (a :: b :: t2) = histMin (b :: t2) := by
        simp only [histMin, List.foldl_cons]
        rw [min_comm a b, min_eq_left (le_of_lt hba)]
      have h2 : histBack (a :: b :: t2) = histBack (b :: t2) := by
        simp [histBack]
      rw [h1, h2]
      exact ih ht (by simp)

theorem specKeyLt_trichotomy {a b : Nat × Int} (h : a.2 ≠ b.2) :
    specKeyLt a b ∨ specKeyLt b a := by
  rcases a with ⟨a1, a2⟩
  rcases b with ⟨b1, b2⟩
  simp only [specKeyLt]
  simp only [ne_eq] at h
  rcases Nat.lt_trichotomy a1 b1 with h1 | h1 | h1
  · exact Or.inl (Or.inl h1)
  · rcases Int.lt_or_lt_of_ne (by simpa using h) with h2 | h2
    · exact Or.inl (Or.inr ⟨h1, h2⟩)
    · exact Or.inr (Or.inr ⟨h1.symm, h2⟩)
  · exact Or.inr (Or.inl h1)

theorem specKeyLt_trans {a b c : Nat × Int} (h1 : specKeyLt a b) (h2 : specKeyLt b c) :
    specKeyLt a c := by
  rcases a with ⟨a1, a2⟩
  rcases b with ⟨b1, b2⟩
  rcases c with ⟨c1, c2⟩
  simp only [specKeyLt] at h1 h2 ⊢
  omega

theorem specKeyLt_irrefl (a : Nat × Int) : ¬ specKeyLt a a := by
  rcases a with ⟨a1, a2⟩
  simp only [specKeyLt]
  omega

/-- The code's set comparator agrees with the spec's victim ordering: frame 1
sorts strictly below frame 2 exactly when the spec prefers frame 2 less (the
spec key of frame 2 is lexicographically above... precisely: cmpLess f1 f2 ↔
specKey f2 < specKey f1). -/
theorem cmpLess_iff_specKeyLt {n k : Nat} {r : Replacer} (hi : RInv n k r)
    {f1 f2 : Nat} {fh1 fh2 : FrameHist}
    (h1 : mapFind r.map f1 = some fh1) (h2 : mapFind r.map f2 = some fh2) :
    (r.cmpLess f1 f2 = true ↔ specKeyLt (specKey r f2) (specKey r f1)) := by
  have hlen1 := hi.histLen f1 fh1 h1
  have hlen2 := hi.histLen f2 fh2 h2
  have hmin1 : histMin fh1.hist = histBack fh1.hist :=
    histMin_eq_histBack fh1.hist (hi.histSorted f1 fh1 h1)
      (List.ne_nil_of_length_pos (by omega))
  have hmin2 : histMin fh2.hist = histBack fh2.hist :=
    histMin_eq_histBack fh2.hist (hi.histSorted f2 fh2 h2)
      (List.ne_nil_of_length_pos (by omega))
  have hh1 : r.histOf f1 = fh1 := by simp [Replacer.histOf, h1]
  have hh2 : r.histOf f2 = fh2 := by simp [Replacer.histOf, h2]
  have hkr : r.k = k := hi.kEq
  by_cases ha1 : fh1.hist.length = k <;> by_cases ha2 : fh2.hist.length = k
  · -- both windows full: compare the k-th most recent access (the back)
    have hr1 : ¬ fh1.hist.length < k := by omega
    have hr2 : ¬ fh2.hist.length < k := by omega
    simp only [Replacer.cmpLess, specKey, specKeyLt, hh1, hh2, hkr, ha1, ha2, hr1, hr2,
      hmin1, hmin2]
    simp [not_le]
  · -- frame 1 full, frame 2 short: frame 1 sorts strictly below frame 2
    have hr1 : ¬ fh1.hist.length < k := by omega
    have hr2 : fh2.hist.length < k := by omega
    have hb2 : fh2.hist.length ≠ k := by omega
    simp only [Replacer.cmpLess, specKey, specKeyLt, hh1, hh2, hkr, ha1, hb2, hr1, hr2]
    simp [hb2]
  · -- frame 1 short, frame 2 full: frame 1 sorts strictly above frame 2
    have hr1 : fh1.hist.length < k := by omega
    have hr2 : ¬ fh2.hist.length < k := by omega
    have hb1 : fh1.hist.length ≠ k := by omega
    simp only [Replacer.cmpLess, specKey, specKeyLt, hh1, hh2, hkr, hb1, ha2, hr1, hr2]
    simp [hb1]
  · -- both short: classical LRU on the first (oldest) recorded access
    have hr1 : fh1.hist.length < k := by omega
    have hr2 : fh2.hist.length < k := by omega
    have hb1 : fh1.hist.length ≠ k := by omega
    have hb2 : fh2.hist.length ≠ k := by omega
    simp only [Replacer.cmpLess, specKey, specKeyLt, hh1, hh2, hkr, hb1, hb2, hr1, hr2,
      hmin1, hmin2]
    simp [hb1, hb2, not_le]

theorem foldl_pick_mem (p : Nat → Nat → Bool) :
    ∀ (cs : List Nat) (c : Nat),
      cs.foldl (fun best x => if p best x then x else best) c ∈ c :: cs := by
  intro cs
  induction cs with
  | nil => intro c; simp
  | cons x cs ih =>
    intro c
    rw [List.foldl_cons]
    rcases List.mem_cons.mp (ih (if p c x then x else c)) with h | h
    · rw [h]
      by_cases hp : p c x
      · rw [if_pos hp]
        exact List.mem_cons_of_mem c (List.mem_cons_self x cs)
      · rw [if_neg hp]
        exact List.mem_cons_self c (x :: cs)
    · exact List.mem_cons_of_mem c (List.mem_cons_of_mem x h)

theorem foldl_cmp_minimal {r : Replacer} :
    ∀ (cs : List Nat) (c : Nat),
      (∀ g1 ∈ c :: cs, ∀ g2 ∈ c :: cs,
        (r.cmpLess g1 g2 = true ↔ specKeyLt (specKey r g2) (specKey r g1))) →
      (∀ g1 ∈ c :: cs, ∀ g2 ∈ c :: cs, g1 ≠ g2 →
        (specKey r g1).2 ≠ (specKey r g2).2) →
      (c :: cs).Nodup →
      ∀ g ∈ c :: cs, g ≠ cs.foldl (fun best x => if r.cmpLess best x then x else best) c →
        specKeyLt
          (specKey r (cs.foldl (fun best x => if r.cmpLess best x then x else best) c))
          (specKey r g) := by
  intro cs
  induction cs with
  | nil =>
    intro c _ _ _ g hg hne
    simp only [List.foldl_nil] at hne
    simp only [List.mem_singleton] at hg
    exact absurd hg hne
  | cons x cs ih =>
    intro c hbridge hdist hnd g hg hne
    rw [List.foldl_cons] at hne ⊢
    have hsubm : ∀ y ∈ (if r.cmpLess c x then x else c) :: cs, y ∈ c :: x :: cs := by
      intro y hy
      rcases List.mem_cons.mp hy with h | h
      · rw [h]
        by_cases hp : r.cmpLess c x
        · rw [if_pos hp]
          exact List.mem_cons_of_mem c (List.mem_cons_self x cs)
        · rw [if_neg hp]
          exact List.mem_cons_self c (x :: cs)
      · exact List.mem_cons_of_mem c (List.mem_cons_of_mem x h)
    have hA := ih (if r.cmpLess c x then x else c)
      (fun g1 h1 g2 h2 => hbridge g1 (hsubm g1 h1) g2 (hsubm g2 h2))
      (fun g1 h1 g2 h2 => hdist g1 (hsubm g1 h1) g2 (hsubm g2 h2))
      (by
        rcases List.nodup_cons.mp hnd with ⟨hc, hnd1⟩
        rcases List.nodup_cons.mp hnd1 with ⟨hx, hnd3⟩
        by_cases hp : r.cmpLess c x
        · rw [if_pos hp]
          exact List.nodup_cons.mpr ⟨hx, hnd3⟩
        · rw [if_neg hp]
          exact List.nodup_cons.mpr ⟨fun hcc => hc (List.mem_cons_of_mem x hcc), hnd3⟩)
    have hcx : c ∈ c :: x :: cs := List.mem_cons_self c (x :: cs)
    have hxx : x ∈ c :: x :: cs := List.mem_cons_of_mem c (List.mem_cons_self x cs)
    have hnecx : c ≠ x := by
      rcases List.nodup_cons.mp hnd with ⟨hc, _⟩
      exact fun h => hc (h ▸ List.mem_cons_self x cs)
    have hwin : specKeyLt
        (specKey r (if r.cmpLess c x then x else c))
        (specKey r (if r.cmpLess c x then c else x)) := by
      by_cases hp : r.cmpLess c x
      · rw [if_pos hp, if_pos hp]
        exact (hbridge c hcx x hxx).mp hp
      · rw [if_neg hp, if_neg hp]
        have hnot : ¬ specKeyLt (specKey r x) (specKey r c) := by
          intro hlt
          exact hp ((hbridge c hcx x hxx).mpr hlt)
        rcases specKeyLt_trichotomy (hdist c hcx x hxx hnecx) with h | h
        · exact h
        · exact absurd h hnot
    have hB : ∀ hgl : g = (if r.cmpLess c x then c else x),
        specKeyLt
          (specKey r (cs.foldl (fun best y => if r.cmpLess best y then y else best)
            (if r.cmpLess c x then x else c)))
          (specKey r g) := by
      intro hgl
      by_cases hrc : cs.foldl (fun best y => if r.cmpLess best y then y else best)
          (if r.cmpLess c x then x else c) = (if r.cmpLess c x then x else c)
      · rw [hrc, hgl]
        exact hwin
      · have h1 := hA (if r.cmpLess c x then x else c)
          (List.mem_cons_self _ cs) (fun h => hrc h.symm)
        exact specKeyLt_trans h1 (hgl ▸ hwin)
    rcases List.mem_cons.mp hg with hgc | hg1
    · by_cases hp : r.cmpLess c x
      · exact hB (by rw [if_pos hp]; exact hgc)
      · refine hA g ?_ hne
        rw [if_neg hp]
        exact hgc ▸ List.mem_cons_self c cs
    · rcases List.mem_cons.mp hg1 with hgx | hg2
      · by_cases hp : r.cmpLess c x
        · refine hA g ?_ hne
          rw [if_pos hp]
          exact hgx ▸ List.mem_cons_self x cs
        · exact hB (by rw [if_neg hp]; exact hgx)
      · exact hA g (List.mem_cons_of_mem _ hg2) hne

/-- C3, amended: for every valid operation sequence, every frame whose
evictable flag is set is in the candidate set (so Size(), the candidate-set
size, is an over-approximation of the evictable count), candidates are live
frames, and Evict returns only candidate-set members — but a frame just
created by RecordAccess IS inserted into the candidate set: it is counted by
Size() and is an eviction candidate even though its evictable flag is
false. -/
theorem claim_C3_amended_candidate_set_tracks_evictable_plus_fresh
    (n k : Nat) (ops : List ROp) (r : Replacer) (hk : 1 ≤ k)
    (hok : ∀ op ∈ ops, op.frameOk n = true)
    (hrun : Replacer.run n k ops = some r) :
    (∀ f fh, mapFind r.map f = some fh → fh.evictable = true → f ∈ r.cand) ∧
    (∀ f ∈ r.cand, f ∈ r.map.map Prod.fst) ∧
    (∀ f r2, r.evict = (some f, r2) → f ∈ r.cand) ∧
    (∀ f, f < n → mapFind r.map f = none →
      (r.recordAccess f).size = r.size + 1 ∧
      f ∈ (r.recordAccess f).cand ∧
      ((r.recordAccess f).histOf f).evictable = false) := by
  have hi := rinv_run hk hok hrun
  refine ⟨hi.evictableInCand, hi.candSub, ?_, ?_⟩
  · intro f r2 hev
    rcases hc : r.cand with _ | ⟨c, cs⟩
    · simp only [Replacer.evict, hc] at hev
      simp at hev
    · simp only [Replacer.evict, hc] at hev
      rw [Prod.mk.injEq] at hev
      injection hev.1 with h1
      rw [← h1]
      have hcm : r.candMax =
          cs.foldl (fun best x => if r.cmpLess best x then x else best) c := by
        simp [Replacer.candMax, hc]
      rw [hcm]
      exact foldl_pick_mem r.cmpLess cs c
  · intro f hf hnone
    have hfnotc : f ∉ r.cand :=
      fun hcm => ((mapFind_eq_none _ _).mp hnone) (hi.candSub f hcm)
    refine ⟨?_, ?_, ?_⟩
    · simp only [Replacer.size, Replacer.recordAccess, hnone]
      simp [insertCand, hfnotc]
    · simp only [Replacer.recordAccess, hnone]
      exact mem_insertCand.mpr (Or.inr rfl)
    · simp only [Replacer.recordAccess, hnone, Replacer.histOf]
      rw [mapFind_append_none hnone, if_pos rfl]
      rfl

/-- C3 amended, witness: on the trace RecordAccess 0; SetEvictable 0 true;
RecordAccess 1 (k = 2, 3 frames), the evictable frame 0 is a candidate, and
recording the fresh frame 2 grows Size() by one and inserts frame 2 into the
candidate set with its evictable flag still false. -/
theorem claim_C3_amended_witness :
    1 ≤ 2 ∧ (∀ op ∈ c3WOps, op.frameOk 3 = true) ∧
    Replacer.run 3 2 c3WOps = some c3W ∧
    (∀ f fh, mapFind c3W.map f = some fh → fh.evictable = true → f ∈ c3W.cand) ∧
    2 < 3 ∧ mapFind c3W.map 2 = none ∧
    ((c3W.recordAccess 2).size = c3W.size + 1 ∧
      2 ∈ (c3W.recordAccess 2).cand ∧
      ((c3W.recordAccess 2).histOf 2).evictable = false) :=
  ⟨by decide, by decide, by decide,
    (claim_C3_amended_candidate_set_tracks_evictable_plus_fresh 3 2 c3WOps c3W
      (by decide) (by decide) (by decide)).1,
    by decide, by decide,
    (claim_C3_amended_candidate_set_tracks_evictable_plus_fresh 3 2 c3WOps c3W
      (by decide) (by decide) (by decide)).2.2.2 2 (by decide) (by decide)⟩

/-- C5, amended: for every valid trace with a non-empty candidate set, Evict
returns the comparator-greatest member of the candidate set, and that member
is exactly the one the spec's LRU-K ordering selects among the candidates
(not among the evictable frames): it has the strictly least spec key — rank 0
(fewer than k accesses) before rank 1, then the earliest relevant timestamp
(first access for short histories, k-th most recent for full windows). -/
theorem claim_C5_amended_evict_picks_lruk_minimum
    (n k : Nat) (ops : List ROp) (r : Replacer) (hk : 1 ≤ k)
    (hok : ∀ op ∈ ops, op.frameOk n = true)
    (hrun : Replacer.run n k ops = some r) (hne : r.cand ≠ []) :
    (r.evict).1 = some r.candMax ∧
    r.candMax ∈ r.cand ∧
    (∀ g ∈ r.cand, g ≠ r.candMax →
      specKeyLt (specKey r r.candMax) (specKey r g)) := by
  have hi := rinv_run hk hok hrun
  rcases hc : r.cand with _ | ⟨c, cs⟩
  · exact absurd hc hne
  have hcm : r.candMax =
      cs.foldl (fun best x => if r.cmpLess best x then x else best) c := by
    simp [Replacer.candMax, hc]
  have hmem : ∀ g ∈ c :: cs, ∃ fh, mapFind r.map g = some fh := by
    intro g hg
    have hgk : g ∈ r.map.map Prod.fst := hi.candSub g (by rw [hc]; exact hg)
    rcases hfind : mapFind r.map g with _ | fh
    · exact absurd hgk ((mapFind_eq_none _ _).mp hfind)
    · exact ⟨fh, rfl⟩
  have hbridge : ∀ g1 ∈ c :: cs, ∀ g2 ∈ c :: cs,
      (r.cmpLess g1 g2 = true ↔ specKeyLt (specKey r g2) (specKey r g1)) := by
    intro g1 hg1 g2 hg2
    obtain ⟨fh1, hf1⟩ := hmem g1 hg1
    obtain ⟨fh2, hf2⟩ := hmem g2 hg2
    exact cmpLess_iff_specKeyLt hi hf1 hf2
  have hdist : ∀ g1 ∈ c :: cs, ∀ g2 ∈ c :: cs, g1 ≠ g2 →
      (specKey r g1).2 ≠ (specKey r g2).2 := by
    intro g1 hg1 g2 hg2 hne12
    obtain ⟨fh1, hf1⟩ := hmem g1 hg1
    obtain ⟨fh2, hf2⟩ := hmem g2 hg2
    have hl1 := hi.histLen g1 fh1 hf1
    have hl2 := hi.histLen g2 fh2 hf2
    have hnil1 : fh1.hist ≠ [] := List.ne_nil_of_length_pos (by omega)
    have hnil2 : fh2.hist ≠ [] := List.ne_nil_of_length_pos (by omega)
    have hk1 : (specKey r g1).2 = histBack fh1.hist := by
      simp [specKey, Replacer.histOf, hf1,
        histMin_eq_histBack fh1.hist (hi.histSorted g1 fh1 hf1) hnil1]
    have hk2 : (specKey r g2).2 = histBack fh2.hist := by
      simp [specKey, Replacer.histOf, hf2,
        histMin_eq_histBack fh2.hist (hi.histSorted g2 fh2 hf2) hnil2]
    rw [hk1, hk2]
    exact hi.histDisj g1 g2 fh1 fh2 hne12 hf1 hf2 _ (histBack_mem _ hnil1) _
      (histBack_mem _ hnil2)
  refine ⟨?_, ?_, ?_⟩
  · simp [Replacer.evict, hc]
  · rw [hcm]
    exact foldl_pick_mem r.cmpLess cs c
  · intro g hg hgne
    rw [hcm]
    rw [hcm] at hgne
    exact foldl_cmp_minimal cs c hbridge hdist (by rw [← hc]; exact hi.candNodup)
      g hg hgne

/-- C5 amended, witness: on the trace RecordAccess 1; RecordAccess 2;
SetEvictable 1 true; SetEvictable 2 true; RecordAccess 2 (k = 2, 3 frames),
Evict picks the candidate with the least spec key. -/
theorem claim_C5_amended_witness :
    1 ≤ 2 ∧ (∀ op ∈ c5WOps, op.frameOk 3 = true) ∧
    Replacer.run 3 2 c5WOps = some c5W ∧ c5W.cand ≠ [] ∧
    ((c5W.evict).1 = some c5W.candMax ∧
      c5W.candMax ∈ c5W.cand ∧
      (∀ g ∈ c5W.cand, g ≠ c5W.candMax →
        specKeyLt (specKey c5W c5W.candMax) (specKey c5W g))) :=
  ⟨by decide, by decide, by decide, by decide,
    claim_C5_amended_evict_picks_lruk_minimum 3 2 c5WOps c5W (by decide) (by decide)
      (by decide) (by decide)⟩

end BustubSpec
